import Mathlib

/-!
Verification development for the Oracle's Elixir acquisition and normalization
utility (`oeutils.py`).  The pipeline is shallowly embedded: tables are lists of
rows of cells aligned with a column-name list, the HTTP transport / UTF-8
decoding / CSV parsing are oracles bundled in a `Net` structure (the spec treats
them as external collaborators), and the filesystem is a map from path strings
to stored tables together with a current working directory.
-/

deriving instance DecidableEq for Except

namespace OE

/-- A cell of the match-record table: a string value, a numeric value, a parsed
datetime (encoded as the digit string of the parsed date, as a `Nat`), or a
missing value (pandas `NaN`/`NaT`). -/
inductive Cell where
  | str (s : String)
  | num (n : Int)
  | dt (n : Nat)
  | na
deriving DecidableEq

/-- A row-oriented table: a list of column names and rows whose cells are
positionally aligned with the column list. -/
structure Table where
  cols : List String
  rows : List (List Cell)
deriving DecidableEq

/-- Index of the first occurrence of a column name in a column list. -/
def colIdx (cols : List String) (c : String) : Option Nat :=
  match cols with
  | [] => none
  | c0 :: rest => if c0 = c then some 0 else (colIdx rest c).map (· + 1)

/-- Read the cell of a row at a named column (missing columns and ragged rows
read as `Cell.na`). -/
def getCellN (cols : List String) (r : List Cell) (c : String) : Cell :=
  match colIdx cols c with
  | some i => r.getD i Cell.na
  | none => Cell.na

/-- Write the cell of a row at a named column (no-op if the column is absent). -/
def setCellN (cols : List String) (r : List Cell) (c : String) (v : Cell) : List Cell :=
  match colIdx cols c with
  | some i => r.set i v
  | none => r

/-- Python `str.strip()` on the character list: drop whitespace from both ends. -/
def stripChars (l : List Char) : List Char :=
  ((l.dropWhile Char.isWhitespace).reverse.dropWhile Char.isWhitespace).reverse

/-- Python `str.strip()`. -/
def stripStr (s : String) : String := ⟨stripChars s.data⟩

/-- Pandas `Series.str.strip()` on one cell: strings are stripped, everything
that is not a string becomes `NaN`. -/
def stripCell : Cell → Cell
  | Cell.str s => Cell.str (stripStr s)
  | Cell.num _ => Cell.na
  | Cell.dt _ => Cell.na
  | Cell.na => Cell.na

/-- Value of a digit-character list read in base 10 (Python `int`, on digits). -/
def digitsVal (l : List Char) : Nat :=
  l.foldl (fun a c => a * 10 + (c.toNat - 48)) 0

/-- Python `int(s)` on a character list: succeeds on a non-empty all-digit
string. -/
def digitsToNat (l : List Char) : Option Nat :=
  if l ≠ [] && l.all Char.isDigit then some (digitsVal l) else none

/-- Structural check of the fixed date format `YYYY/MM/DD HH:MM:SS` used by
`pd.to_datetime(..., format='%Y/%m/%d %H:%M:%S')` (calendar-range validation of
the external parser is abstracted away). -/
def fmtOk (s : String) : Bool :=
  match s.data with
  | [y1, y2, y3, y4, p1, m1, m2, p2, d1, d2, p3, h1, h2, p4, n1, n2, p5, e1, e2] =>
    y1.isDigit && y2.isDigit && y3.isDigit && y4.isDigit && p1 == '/' &&
    m1.isDigit && m2.isDigit && p2 == '/' && d1.isDigit && d2.isDigit &&
    p3 == ' ' && h1.isDigit && h2.isDigit && p4 == ':' && n1.isDigit &&
    n2.isDigit && p5 == ':' && e1.isDigit && e2.isDigit
  | _ => false

/-- Pandas `to_datetime` with an explicit format on one cell: a matching string
parses, an already-parsed datetime passes through unchanged, `NaN` becomes
`NaT`, and anything else raises. -/
def parseDateCell : Cell → Option Cell
  | Cell.str s => if fmtOk s then some (Cell.dt (digitsVal (s.data.filter Char.isDigit))) else none
  | Cell.dt n => some (Cell.dt n)
  | Cell.na => some Cell.na
  | Cell.num _ => none

/-- True for values `to_datetime` maps to themselves (`datetime` and `NaT`). -/
def isDtNa : Cell → Bool
  | Cell.dt _ => true
  | Cell.na => true
  | _ => false

/-- The `split_on` argument of `clean`: `'team'`, `'player'` or `None`. -/
inductive Split where
  | team
  | player
  | noSplit
deriving DecidableEq

/-- Errors of the normalization pipeline.  `missingColumn` models a pandas
`KeyError`, `duplicateColumn` models the failure pandas raises when a
Series-level operation is applied to a duplicated column label, and
`parseError` models a `to_datetime` failure. -/
inductive CleanErr where
  | parseError
  | missingColumn (c : String)
  | duplicateColumn (c : String)
deriving DecidableEq

/-- Python truthiness of an optional list argument (`None` and `[]` are falsy). -/
def truthyS (o : Option (List String)) : Bool :=
  match o with
  | none => false
  | some l => !l.isEmpty

/-- Whether a Series access `df['c']` is well-defined: exactly one column named
`c`. -/
def uniqueColB (cols : List String) (c : String) : Bool :=
  cols.count c == 1

/-- The error raised by a Series access `df['c']` that is not well-defined. -/
def colErr (cols : List String) (c : String) : CleanErr :=
  if cols.count c = 0 then CleanErr.missingColumn c else CleanErr.duplicateColumn c

/-- Parse the `date` cell of one row and write it back. -/
def parseRowDate (cols : List String) (r : List Cell) : Option (List Cell) :=
  (parseDateCell (getCellN cols r "date")).map (setCellN cols r "date")

/-- Parse the `date` cell of every row (`pd.to_datetime` over the column; any
failing cell fails the whole operation). -/
def parseRows (cols : List String) : List (List Cell) → Option (List (List Cell))
  | [] => some []
  | r :: rs =>
    match parseRowDate cols r, parseRows cols rs with
    | some r', some rs' => some (r' :: rs')
    | _, _ => none

/-- Step 1 of `clean`:
`oe_data['date'] = pd.to_datetime(oe_data['date'], format='%Y/%m/%d %H:%M:%S')`. -/
def stepParseDate (t : Table) : Except CleanErr Table :=
  if uniqueColB t.cols "date" then
    match parseRows t.cols t.rows with
    | some rs => Except.ok ⟨t.cols, rs⟩
    | none => Except.error CleanErr.parseError
  else Except.error (colErr t.cols "date")

/-- Step 2 of `clean`: `oe_data = oe_data[oe_data['datacompleteness'] == 'complete']`. -/
def stepComplete (t : Table) : Except CleanErr Table :=
  if uniqueColB t.cols "datacompleteness" then
    Except.ok ⟨t.cols, t.rows.filter
      (fun r => decide (getCellN t.cols r "datacompleteness" = Cell.str "complete"))⟩
  else Except.error (colErr t.cols "datacompleteness")

/-- Step 3 of `clean`: `if keep_columns: oe_data = oe_data[keep_columns]`. -/
def stepProject (kc : Option (List String)) (t : Table) : Except CleanErr Table :=
  if truthyS kc then
    match (kc.getD []).find? (fun c => !(decide (c ∈ t.cols))) with
    | some c => Except.error (CleanErr.missingColumn c)
    | none => Except.ok ⟨kc.getD [], t.rows.map (fun r => (kc.getD []).map (getCellN t.cols r))⟩
  else Except.ok t

/-- Step 4 of `clean`: `if keep_leagues: oe_data = oe_data[oe_data.league.isin(keep_leagues)]`. -/
def stepLeagues (kl : Option (List String)) (t : Table) : Except CleanErr Table :=
  if truthyS kl then
    if uniqueColB t.cols "league" then
      Except.ok ⟨t.cols, t.rows.filter
        (fun r => decide (getCellN t.cols r "league" ∈ (kl.getD []).map Cell.str))⟩
    else Except.error (colErr t.cols "league")
  else Except.ok t

/-- Strip the `gameid` cell of one row. -/
def stripRow (cols : List String) (r : List Cell) : List Cell :=
  setCellN cols r "gameid" (stripCell (getCellN cols r "gameid"))

/-- Step 5 of `clean`: `oe_data['gameid'] = oe_data['gameid'].str.strip()`
followed by `oe_data = oe_data[oe_data['gameid'].notna()]`. -/
def stepGameid (t : Table) : Except CleanErr Table :=
  if uniqueColB t.cols "gameid" then
    Except.ok ⟨t.cols, (t.rows.map (stripRow t.cols)).filter
      (fun r => decide (getCellN t.cols r "gameid" ≠ Cell.na))⟩
  else Except.error (colErr t.cols "gameid")

/-- Step 6 of `clean`, first filter: `oe_data = oe_data[oe_data['position'] == 'team']`
(and the complementary `!=` filter of step 7). -/
def posRows (split_on : Split) (t : Table) : List (List Cell) :=
  match split_on with
  | Split.team => t.rows.filter (fun r => decide (getCellN t.cols r "position" = Cell.str "team"))
  | Split.player =>
    t.rows.filter (fun r => decide (getCellN t.cols r "position" ≠ Cell.str "team"))
  | Split.noSplit => t.rows

/-- The identity column consulted by the split branch (`team` or `player`). -/
def idCol (split_on : Split) : String :=
  match split_on with
  | Split.team => "team"
  | Split.player => "player"
  | Split.noSplit => ""

/-- The unknown-identity sentinel of the split branch. -/
def unknownSentinel (split_on : Split) : String :=
  match split_on with
  | Split.team => "unknown team"
  | Split.player => "unknown player"
  | Split.noSplit => ""

/-- Steps 6/7, identity filter:
`if keep_identities: oe_data = oe_data[oe_data.team.isin(keep_identities)]` (resp. player). -/
def idRows (split_on : Split) (ki : Option (List String)) (t : Table) : List (List Cell) :=
  if truthyS ki then
    (posRows split_on t).filter
      (fun r => decide (getCellN t.cols r (idCol split_on) ∈ (ki.getD []).map Cell.str))
  else posRows split_on t

/-- Steps 6/7, the `dropgames` list: the game ids of the rows whose identity is
the unknown sentinel. -/
def dropGames (split_on : Split) (ki : Option (List String)) (t : Table) : List Cell :=
  ((idRows split_on ki t).filter
    (fun r =>
      decide (getCellN t.cols r (idCol split_on) = Cell.str (unknownSentinel split_on)))).map
    (fun r => getCellN t.cols r "gameid")

/-- Step 6 of `clean` (the `team` branch): position filter, identity filter,
and whole-game exclusion of `unknown team` games
(`oe_data = oe_data[~oe_data.gameid.isin(dropgames)]`). -/
def stepSplitTeam (ki : Option (List String)) (t : Table) : Except CleanErr Table :=
  if uniqueColB t.cols "position" then
    if uniqueColB t.cols "team" then
      if uniqueColB t.cols "gameid" then
        Except.ok ⟨t.cols, (idRows Split.team ki t).filter
          (fun r => decide (getCellN t.cols r "gameid" ∉ dropGames Split.team ki t))⟩
      else Except.error (colErr t.cols "gameid")
    else Except.error (colErr t.cols "team")
  else Except.error (colErr t.cols "position")

/-- Step 7 of `clean` (the `player` branch), symmetric to step 6 with
player-level rows, the `player` identity column and the `unknown player`
sentinel. -/
def stepSplitPlayer (ki : Option (List String)) (t : Table) : Except CleanErr Table :=
  if uniqueColB t.cols "position" then
    if uniqueColB t.cols "player" then
      if uniqueColB t.cols "gameid" then
        Except.ok ⟨t.cols, (idRows Split.player ki t).filter
          (fun r => decide (getCellN t.cols r "gameid" ∉ dropGames Split.player ki t))⟩
      else Except.error (colErr t.cols "gameid")
    else Except.error (colErr t.cols "player")
  else Except.error (colErr t.cols "position")

/-- Steps 6/7 of `clean`: dispatch on the split selector
(`if split_on == 'team': ... elif split_on == 'player': ...`). -/
def stepSplit (split_on : Split) (ki : Option (List String)) (t : Table) : Except CleanErr Table :=
  match split_on with
  | Split.noSplit => Except.ok t
  | Split.team => stepSplitTeam ki t
  | Split.player => stepSplitPlayer ki t

/-- The first five steps of `clean` (everything before the split-specific
subsetting). -/
def cleanPre (t : Table) (keep_leagues keep_columns : Option (List String)) : Except CleanErr Table :=
  match stepParseDate t with
  | Except.error e => Except.error e
  | Except.ok t1 =>
    match stepComplete t1 with
    | Except.error e => Except.error e
    | Except.ok t2 =>
      match stepProject keep_columns t2 with
      | Except.error e => Except.error e
      | Except.ok t3 =>
        match stepLeagues keep_leagues t3 with
        | Except.error e => Except.error e
        | Except.ok t4 => stepGameid t4

/-- The `clean` function of `oeutils.py` (the normalizer). -/
def clean (oe_data : Table) (split_on : Split)
    (keep_identities keep_leagues keep_columns : Option (List String)) : Except CleanErr Table :=
  match cleanPre oe_data keep_leagues keep_columns with
  | Except.error e => Except.error e
  | Except.ok t5 => stepSplit split_on keep_identities t5

/-- Raw bytes of an HTTP response body. -/
abbrev Bytes := List Nat

/-- External collaborators of the acquirer, as oracles: the HTTP transport
(`requests.get`), UTF-8 decoding (`bytes.decode('utf8')`), CSV parsing
(`pd.read_csv`), and the success of saving (`DataFrame.to_csv`) at a path.
Each returns `none`/`false` on failure. -/
structure Net where
  get : String → Option Bytes
  decodeUtf8 : Bytes → Option String
  readCsv : String → Option Table
  saveOk : String → Bool

/-- The process-global date strings computed at module load:
`today = current_date.strftime('%Y%m%d')` and `yesterday` one day earlier. -/
structure Dates where
  today : String
  yesterday : String

/-- The local filesystem: the process current working directory (a path
prefix) and a map from path strings to stored tables. -/
structure FS where
  cwd : String
  files : List (String × Table)
deriving DecidableEq

/-- Python `s.startswith(p)`. -/
def strStartsWith (s p : String) : Bool := p.data.isPrefixOf s.data

/-- Python `s.endswith(p)`. -/
def strEndsWith (s p : String) : Bool := p.data.isSuffixOf s.data

/-- Drop the first `k` characters of a string. -/
def strDropLen (k : Nat) (s : String) : String := ⟨s.data.drop k⟩

/-- Read a stored file (`pd.read_csv` of a local path; `none` models
`FileNotFoundError`). -/
def fsGet (fs : FS) (path : String) : Option Table :=
  (fs.files.find? (fun kv => decide (kv.1 = path))).map (fun kv => kv.2)

/-- Write a file (`DataFrame.to_csv(path)`), overwriting any previous content. -/
def fsWrite (fs : FS) (path : String) (data : Table) : FS :=
  ⟨fs.cwd, (path, data) :: fs.files.filter (fun kv => !(decide (kv.1 = path)))⟩

/-- Delete a file by path (`os.remove`). -/
def fsRemove (fs : FS) (path : String) : FS :=
  ⟨fs.cwd, fs.files.filter (fun kv => !(decide (kv.1 = path)))⟩

/-- Python `os.listdir()` with no argument: the names of the files in the
process current working directory. -/
def listdir (fs : FS) : List String :=
  fs.files.filterMap (fun kv =>
    if strStartsWith kv.1 fs.cwd then some (strDropLen fs.cwd.length kv.1) else none)

/-- The fixed per-year filename stem
`f'{year}_LoL_esports_match_data_from_OraclesElixir_'`. -/
def yearStem (year : String) : String :=
  year ++ "_LoL_esports_match_data_from_OraclesElixir_"

/-- The fixed remote base URL. -/
def urlBase : String :=
  "https://oracleselixir-downloadable-match-data.s3-us-west-2.amazonaws.com/"

/-- The line `current_files = [x for x in os.listdir() if x.startswith(file)]`. -/
def currentFilesOf (fs : FS) (year : String) : List String :=
  (listdir fs).filter (fun x => strStartsWith x (yearStem year))

/-- The stale-deletion loop `for f in current_files: os.remove(f)` (bare names
resolve against the process current working directory). -/
def delStale (fs : FS) (year : String) : FS :=
  (currentFilesOf fs year).foldl (fun a f => fsRemove a (fs.cwd ++ f)) fs

/-- Fetch, decode and parse one remote CSV (the `requests.get` /
`r.content.decode('utf8')` / `pd.read_csv` part of the `try` body). -/
def fetchCsv (net : Net) (url : String) : Option Table :=
  match net.get url with
  | none => none
  | some content =>
    match net.decodeUtf8 content with
    | none => none
    | some text =>
      match net.readCsv text with
      | none => none
      | some data => some data

/-- One dated acquisition attempt: fetch, decode, parse, and save to
`f'{directory}{file}{date}.csv'`.  Any failure (the bare `except` scope)
yields `none` and leaves the filesystem unchanged. -/
def attemptDate (net : Net) (fs : FS) (directory year date : String) : Option FS :=
  match fetchCsv net (urlBase ++ yearStem year ++ date ++ ".csv") with
  | none => none
  | some data =>
    if net.saveOk (directory ++ yearStem year ++ date ++ ".csv") then
      some (fsWrite fs (directory ++ yearStem year ++ date ++ ".csv") data)
    else none

/-- Outcome of an acquisition: normal return, or a propagating exception; both
carry the filesystem state (filesystem effects persist across a raise). -/
inductive DLOut where
  | ok (fs : FS)
  | err (fs : FS)
deriving DecidableEq

/-- The per-year body of `download`'s loop: under
`if delete and f'{file}{today}.csv' not in current_files:` delete the stale
local copies (`delStale`), try today's file, fall back to yesterday's on any
failure, and let a second failure propagate. -/
def downloadYear (net : Net) (dates : Dates) (directory : String) (delete : Bool)
    (year : String) (fs : FS) : DLOut :=
  if delete && !(decide ((yearStem year ++ dates.today ++ ".csv") ∈ currentFilesOf fs year)) then
    match attemptDate net (delStale fs year) directory year dates.today with
    | some fs2 => DLOut.ok fs2
    | none =>
      match attemptDate net (delStale fs year) directory year dates.yesterday with
      | some fs2 => DLOut.ok fs2
      | none => DLOut.err (delStale fs year)
  else DLOut.ok fs

/-- The `years` argument of `download`/`read`: a list of year strings, a bare
integer, or a bare string. -/
inductive YearsArg where
  | list (ys : List String)
  | intYear (n : Nat)
  | strYear (s : String)
deriving DecidableEq

/-- The "Conditional Handling For Years" block shared by `download` and
`read`: a non-list argument is wrapped in a one-element list, and only
elements that are `int` instances are converted (`str(year)`) and kept. -/
def yearsNorm : YearsArg → List String
  | YearsArg.list ys => ys
  | YearsArg.intYear n => [toString n]
  | YearsArg.strYear _ => []

/-- The `for year in years` loop of `download`; an uncaught exception stops
the loop and propagates. -/
def downloadLoop (net : Net) (dates : Dates) (directory : String) (delete : Bool) :
    List String → FS → DLOut
  | [], fs => DLOut.ok fs
  | y :: ys, fs =>
    match downloadYear net dates directory delete y fs with
    | DLOut.ok fs' => downloadLoop net dates directory delete ys fs'
    | DLOut.err e => DLOut.err e

/-- The `download` function of `oeutils.py` (the acquirer). -/
def download (net : Net) (dates : Dates) (directory : String) (years : YearsArg)
    (delete : Bool) (fs : FS) : DLOut :=
  downloadLoop net dates directory delete (yearsNorm years) fs

/-- The files matching `glob.glob(prefix_path + '*.csv')`: existing paths that
extend `prefix_path` and whose remainder matches `*.csv`. -/
def globMatches (fs : FS) (prefix_path : String) : List String :=
  fs.files.filterMap (fun kv =>
    if strStartsWith kv.1 prefix_path && strEndsWith (strDropLen prefix_path.length kv.1) ".csv"
    then some kv.1 else none)

/-- The slice `match[-12:-4]` of Python (on the character list). -/
def sliceDate (l : List Char) : List Char :=
  (l.drop (l.length - 12)).take ((l.length - 4) - (l.length - 12))

/-- The loop computing `most_recent_file_date`: parse `int(match[-12:-4])` for
each match and keep the largest; a `ValueError` aborts the whole year. -/
def maxDateLoop : List String → Nat → Option Nat
  | [], acc => some acc
  | p :: ps, acc =>
    match digitsToNat (sliceDate p.data) with
    | none => none
    | some d => maxDateLoop ps (if d > acc then d else acc)

/-- The per-year body of `read`'s loop: glob the year's files, compute the most
recent embedded date, and read that file; any exception (unparsable date
substring or missing file) makes the year be skipped. -/
def readYear (fs : FS) (directory year : String) : Option Table :=
  match maxDateLoop (globMatches fs (directory ++ yearStem year)) 0 with
  | none => none
  | some most_recent =>
    fsGet fs (directory ++ yearStem year ++ toString most_recent ++ ".csv")

/-- The initial `oe_data = pd.DataFrame()`. -/
def emptyTable : Table := ⟨[], []⟩

/-- Pandas `pd.concat([a, b], axis=0)`: rows appended, columns unioned (first table's
order first) with missing cells filled with `NaN`. -/
def concatT (a b : Table) : Table :=
  let cols := a.cols ++ b.cols.filter (fun c => !(decide (c ∈ a.cols)))
  ⟨cols, a.rows.map (fun r => cols.map (getCellN a.cols r)) ++
         b.rows.map (fun r => cols.map (getCellN b.cols r))⟩

/-- The `read` function of `oeutils.py` (the loader): concatenate the most
recent file of every requested year, skipping years with no usable file. -/
def read (fs : FS) (directory : String) (years : YearsArg) : Table :=
  (yearsNorm years).foldl (fun acc year =>
    match readYear fs directory year with
    | some data => concatT acc data
    | none => acc) emptyTable

/-- The caller's table after a call to `clean`: the first statement
`oe_data['date'] = pd.to_datetime(...)` assigns into the caller's frame in
place, so when date parsing succeeds the caller's `date` column holds the
parsed values; every later statement rebinds `oe_data` to a fresh filtered
copy and leaves the caller's frame alone. -/
def cleanCallerAfter (t : Table) : Table :=
  match stepParseDate t with
  | Except.ok t1 => t1
  | Except.error _ => t

/-! ### Basic lemmas about rows, columns and cells -/

theorem list_set_getD_self (r : List Cell) : ∀ i : Nat, r.set i (r.getD i Cell.na) = r := by
  induction r with
  | nil => intro i; rfl
  | cons a l ih =>
    intro i
    cases i with
    | zero => rfl
    | succ n => simp only [List.getD_cons_succ, List.set_cons_succ, ih n]

theorem list_getD_set_ne (l : List Cell) (i j : Nat) (v : Cell) (h : i ≠ j) :
    (l.set i v).getD j Cell.na = l.getD j Cell.na := by
  simp only [List.getD_eq_getElem?_getD, List.getElem?_set_ne h]

theorem colIdx_lt {cols : List String} {c : String} {i : Nat} (h : colIdx cols c = some i) :
    i < cols.length := by
  induction cols generalizing i with
  | nil => simp [colIdx] at h
  | cons c0 rest ih =>
    by_cases hc : c0 = c
    · simp only [colIdx, if_pos hc, Option.some.injEq] at h
      simp [← h]
    · simp only [colIdx, if_neg hc, Option.map_eq_some'] at h
      obtain ⟨j, hj, hji⟩ := h
      have := ih hj
      simp only [List.length_cons]
      omega

theorem colIdx_getD {cols : List String} {c : String} {i : Nat} (h : colIdx cols c = some i) :
    cols.getD i "" = c := by
  induction cols generalizing i with
  | nil => simp [colIdx] at h
  | cons c0 rest ih =>
    by_cases hc : c0 = c
    · simp only [colIdx, if_pos hc, Option.some.injEq] at h
      subst hc
      simp [← h]
    · simp only [colIdx, if_neg hc, Option.map_eq_some'] at h
      obtain ⟨j, hj, hji⟩ := h
      subst hji
      simpa using ih hj

theorem colIdx_none_iff {cols : List String} {c : String} :
    colIdx cols c = none ↔ c ∉ cols := by
  induction cols with
  | nil => simp [colIdx]
  | cons c0 rest ih =>
    simp only [colIdx, List.mem_cons]
    by_cases hc : c0 = c
    · simp [hc]
    · simp only [if_neg hc, Option.map_eq_none', ih]
      constructor
      · rintro hn (h1 | h2)
        · exact hc h1.symm
        · exact hn h2
      · exact fun hn h2 => hn (Or.inr h2)

theorem colIdx_mem {cols : List String} {c : String} (h : c ∈ cols) :
    ∃ i, colIdx cols c = some i := by
  cases hi : colIdx cols c with
  | none => exact absurd h (colIdx_none_iff.mp hi)
  | some i => exact ⟨i, rfl⟩

theorem colIdx_inj {cols : List String} {a b : String} {i j : Nat}
    (ha : colIdx cols a = some i) (hb : colIdx cols b = some j) (hab : a ≠ b) : i ≠ j := by
  intro hij
  subst hij
  exact hab ((colIdx_getD ha).symm.trans (colIdx_getD hb))

theorem getCellN_setCellN_ne (cols : List String) (r : List Cell) {a b : String} (v : Cell)
    (hab : a ≠ b) : getCellN cols (setCellN cols r b v) a = getCellN cols r a := by
  unfold getCellN setCellN
  cases hb : colIdx cols b with
  | none => rfl
  | some j =>
    cases ha : colIdx cols a with
    | none => rfl
    | some i => exact list_getD_set_ne r j i v (colIdx_inj hb ha (fun h => hab h.symm))

theorem setCellN_get_self (cols : List String) (r : List Cell) (c : String) :
    setCellN cols r c (getCellN cols r c) = r := by
  unfold getCellN setCellN
  cases hc : colIdx cols c with
  | none => rfl
  | some i => exact list_set_getD_self r i

theorem getCellN_map_self (cs : List String) (f : String → Cell) {c : String} (h : c ∈ cs) :
    getCellN cs (cs.map f) c = f c := by
  induction cs with
  | nil => cases h
  | cons c0 rest ih =>
    by_cases hc : c0 = c
    · subst hc
      simp [getCellN, colIdx]
    · have hr : c ∈ rest := by
        rcases List.mem_cons.mp h with h1 | h2
        · exact absurd h1.symm hc
        · exact h2
      obtain ⟨j, hj⟩ := colIdx_mem hr
      have ihj := ih hr
      unfold getCellN at ihj ⊢
      rw [show colIdx (c0 :: rest) c = some (j + 1) by simp [colIdx, if_neg hc, hj]]
      rw [hj] at ihj
      simpa using ihj

/-! ### Idempotence of stripping -/

theorem dropWhile_head_not {p : Char → Bool} {l : List Char} {c : Char}
    (h : (l.dropWhile p).head? = some c) : p c = false := by
  induction l with
  | nil => simp [List.dropWhile] at h
  | cons a t ih =>
    by_cases hp : p a
    · rw [List.dropWhile_cons, if_pos hp] at h
      exact ih h
    · rw [List.dropWhile_cons, if_neg hp] at h
      simp only [List.head?_cons, Option.some.injEq] at h
      subst h
      exact Bool.eq_false_iff.mpr hp

theorem dropWhile_eq_self_of_head {p : Char → Bool} {l : List Char}
    (h : ∀ c, l.head? = some c → p c = false) : l.dropWhile p = l := by
  cases l with
  | nil => rfl
  | cons a t =>
    have := h a rfl
    simp [List.dropWhile_cons, this]

theorem getLast?_dropWhile {p : Char → Bool} (l : List Char)
    (hne : l.dropWhile p ≠ []) : (l.dropWhile p).getLast? = l.getLast? := by
  obtain ⟨t, ht⟩ := List.dropWhile_suffix (l := l) p
  conv_rhs => rw [← ht]
  rw [List.getLast?_append]
  cases hw : (l.dropWhile p).getLast? with
  | none => exact absurd (List.getLast?_eq_none_iff.mp hw) hne
  | some x => rfl

theorem stripChars_idem (l : List Char) : stripChars (stripChars l) = stripChars l := by
  unfold stripChars
  generalize hm : l.dropWhile Char.isWhitespace = m
  generalize hw : m.reverse.dropWhile Char.isWhitespace = w
  have h1 : w.reverse.dropWhile Char.isWhitespace = w.reverse := by
    apply dropWhile_eq_self_of_head
    intro c hc
    rw [List.head?_reverse] at hc
    by_cases hne : w = []
    · rw [hne] at hc
      simp at hc
    · rw [← hw] at hc hne
      rw [getLast?_dropWhile _ hne, List.getLast?_reverse] at hc
      rw [← hm] at hc
      exact dropWhile_head_not hc
  have h2 : w.dropWhile Char.isWhitespace = w := by
    rw [← hw]
    exact dropWhile_eq_self_of_head fun c hc => dropWhile_head_not hc
  rw [h1, List.reverse_reverse, h2]

theorem stripStr_idem (s : String) : stripStr (stripStr s) = stripStr s := by
  unfold stripStr
  exact congrArg String.mk (stripChars_idem s.data)

theorem stripCell_idem (c : Cell) : stripCell (stripCell c) = stripCell c := by
  cases c with
  | str s => exact congrArg Cell.str (stripStr_idem s)
  | num n => rfl
  | dt n => rfl
  | na => rfl

theorem list_getD_set_self (l : List Cell) : ∀ (i : Nat) (v : Cell), i < l.length →
    (l.set i v).getD i Cell.na = v := by
  induction l with
  | nil => intro i v h; simp at h
  | cons a t ih =>
    intro i v h
    cases i with
    | zero => rfl
    | succ n =>
      simp only [List.set_cons_succ, List.getD_cons_succ]
      exact ih n v (by simpa using h)

theorem list_set_oob (l : List Cell) : ∀ (i : Nat) (v : Cell), l.length ≤ i → l.set i v = l := by
  induction l with
  | nil => intro i v _; rfl
  | cons a t ih =>
    intro i v h
    cases i with
    | zero => simp at h
    | succ n =>
      simp only [List.set_cons_succ]
      rw [ih n v (by simpa using h)]

theorem list_getD_oob (l : List Cell) (i : Nat) (h : l.length ≤ i) :
    l.getD i Cell.na = Cell.na := by
  rw [List.getD_eq_getElem?_getD, List.getElem?_eq_none h, Option.getD_none]

theorem getCellN_setCellN_self (cols : List String) (r : List Cell) (c : String) (v : Cell) :
    getCellN cols (setCellN cols r c v) c = v ∨
      (getCellN cols (setCellN cols r c v) c = Cell.na ∧ getCellN cols r c = Cell.na) := by
  cases hc : colIdx cols c with
  | none =>
    right
    constructor <;> simp [getCellN, setCellN, hc]
  | some i =>
    by_cases hi : i < r.length
    · left
      simp only [getCellN, setCellN, hc]
      exact list_getD_set_self r i v hi
    · right
      constructor
      · simp only [getCellN, setCellN, hc]
        rw [list_set_oob r i v (Nat.le_of_not_lt hi)]
        exact list_getD_oob r i (Nat.le_of_not_lt hi)
      · simp only [getCellN, hc]
        exact list_getD_oob r i (Nat.le_of_not_lt hi)

theorem getCellN_stripRow (cols : List String) (r : List Cell) :
    getCellN cols (stripRow cols r) "gameid" = stripCell (getCellN cols r "gameid") := by
  unfold stripRow
  rcases getCellN_setCellN_self cols r "gameid" (stripCell (getCellN cols r "gameid")) with
    h | ⟨h1, h2⟩
  · exact h
  · rw [h1, h2]
    rfl

theorem stripRow_other (cols : List String) (r : List Cell) (c : String) (hc : c ≠ "gameid") :
    getCellN cols (stripRow cols r) c = getCellN cols r c :=
  getCellN_setCellN_ne cols r _ hc

theorem stripRow_self {cols : List String} {r : List Cell}
    (h : stripCell (getCellN cols r "gameid") = getCellN cols r "gameid") :
    stripRow cols r = r := by
  unfold stripRow
  rw [h]
  exact setCellN_get_self cols r "gameid"

/-! ### Date parsing lemmas -/

theorem parseDateCell_isDtNa {c v : Cell} (h : parseDateCell c = some v) : isDtNa v = true := by
  cases c with
  | str s =>
    simp only [parseDateCell] at h
    by_cases hf : fmtOk s
    · rw [if_pos hf] at h
      simp only [Option.some.injEq] at h
      rw [← h]
      rfl
    · rw [if_neg hf] at h
      cases h
  | num n => simp [parseDateCell] at h
  | dt n =>
    simp only [parseDateCell, Option.some.injEq] at h
    rw [← h]
    rfl
  | na =>
    simp only [parseDateCell, Option.some.injEq] at h
    rw [← h]
    rfl

theorem parseDateCell_self {c : Cell} (h : isDtNa c = true) : parseDateCell c = some c := by
  cases c with
  | str s => simp [isDtNa] at h
  | num n => simp [isDtNa] at h
  | dt n => rfl
  | na => rfl

theorem parseRowDate_self {cols : List String} {r : List Cell}
    (h : isDtNa (getCellN cols r "date") = true) : parseRowDate cols r = some r := by
  unfold parseRowDate
  rw [parseDateCell_self h, Option.map_some']
  rw [setCellN_get_self cols r "date"]

theorem parseRowDate_sets {cols : List String} {r r' : List Cell}
    (h : parseRowDate cols r = some r') :
    ∃ v, parseDateCell (getCellN cols r "date") = some v ∧ r' = setCellN cols r "date" v := by
  unfold parseRowDate at h
  cases hp : parseDateCell (getCellN cols r "date") with
  | none => rw [hp] at h; cases h
  | some v =>
    rw [hp, Option.map_some'] at h
    cases h
    exact ⟨v, rfl, rfl⟩

theorem parseRowDate_other {cols : List String} {r r' : List Cell}
    (h : parseRowDate cols r = some r') {c : String} (hc : c ≠ "date") :
    getCellN cols r' c = getCellN cols r c := by
  obtain ⟨v, hv, rfl⟩ := parseRowDate_sets h
  exact getCellN_setCellN_ne cols r v hc

theorem parseRowDate_date_isDtNa {cols : List String} {r r' : List Cell}
    (h : parseRowDate cols r = some r') : isDtNa (getCellN cols r' "date") = true := by
  obtain ⟨v, hv, rfl⟩ := parseRowDate_sets h
  have hdt := parseDateCell_isDtNa hv
  rcases getCellN_setCellN_self cols r "date" v with h1 | ⟨h1, _⟩
  · rw [h1]; exact hdt
  · rw [h1]; rfl

theorem parseRows_mem {cols : List String} {rs rs' : List (List Cell)}
    (h : parseRows cols rs = some rs') :
    ∀ r' ∈ rs', ∃ r ∈ rs, parseRowDate cols r = some r' := by
  induction rs generalizing rs' with
  | nil =>
    cases h
    intro r' hr'
    cases hr'
  | cons r rest ih =>
    unfold parseRows at h
    cases hp : parseRowDate cols r with
    | none => rw [hp] at h; cases h
    | some r0 =>
      rw [hp] at h
      cases hq : parseRows cols rest with
      | none => rw [hq] at h; cases h
      | some rest' =>
        rw [hq] at h
        cases h
        intro r' hr'
        rcases List.mem_cons.mp hr' with h1 | h2
        · subst h1
          exact ⟨r, List.mem_cons_self r rest, hp⟩
        · obtain ⟨r1, hr1, hpr⟩ := ih hq r' h2
          exact ⟨r1, List.mem_cons_of_mem _ hr1, hpr⟩

theorem parseRows_length {cols : List String} {rs rs' : List (List Cell)}
    (h : parseRows cols rs = some rs') : rs'.length = rs.length := by
  induction rs generalizing rs' with
  | nil => cases h; rfl
  | cons r rest ih =>
    unfold parseRows at h
    cases hp : parseRowDate cols r with
    | none => rw [hp] at h; cases h
    | some r0 =>
      rw [hp] at h
      cases hq : parseRows cols rest with
      | none => rw [hq] at h; cases h
      | some rest' =>
        rw [hq] at h
        cases h
        simp [ih hq]

theorem parseRows_self {cols : List String} {rs : List (List Cell)}
    (h : ∀ r ∈ rs, parseRowDate cols r = some r) : parseRows cols rs = some rs := by
  induction rs with
  | nil => rfl
  | cons r rest ih =>
    unfold parseRows
    rw [h r (List.mem_cons_self r rest), ih (fun x hx => h x (List.mem_cons_of_mem _ hx))]

theorem parseRows_rel {cols : List String} {rs rs' : List (List Cell)}
    (h : parseRows cols rs = some rs') :
    ∀ i : Nat, (rs.length ≤ i ∧ rs'.length ≤ i) ∨
      parseRowDate cols (rs.getD i []) = some (rs'.getD i []) := by
  induction rs generalizing rs' with
  | nil =>
    cases h
    intro i
    exact Or.inl ⟨Nat.zero_le i, Nat.zero_le i⟩
  | cons r rest ih =>
    unfold parseRows at h
    cases hp : parseRowDate cols r with
    | none => rw [hp] at h; cases h
    | some r0 =>
      rw [hp] at h
      cases hq : parseRows cols rest with
      | none => rw [hq] at h; cases h
      | some rest' =>
        rw [hq] at h
        cases h
        intro i
        cases i with
        | zero => exact Or.inr (by simpa using hp)
        | succ n =>
          rcases ih hq n with ⟨h1, h2⟩ | h3
          · exact Or.inl ⟨by simpa using h1, by simpa using h2⟩
          · exact Or.inr (by simpa using h3)

/-! ### Column-count and projection lemmas -/

theorem count_le_one_getD_inj {cs : List String} {c : String} :
    cs.count c ≤ 1 → ∀ i j, i < cs.length → j < cs.length →
      cs.getD i "" = c → cs.getD j "" = c → i = j := by
  induction cs with
  | nil =>
    intro _ i j hi
    simp at hi
  | cons c0 rest ih =>
    intro hc i j hi hj hgi hgj
    rw [List.count_cons] at hc
    have hrest : rest.count c ≤ 1 := by
      by_cases h0 : (c0 == c) = true <;> simp [h0] at hc <;> omega
    cases i with
    | zero =>
      cases j with
      | zero => rfl
      | succ j' =>
        exfalso
        have hc0 : c0 = c := by simpa using hgi
        have hj' : j' < rest.length := by simpa using hj
        have hgj' : rest.getD j' "" = c := by simpa using hgj
        have hmem : c ∈ rest := by
          rw [List.getD_eq_getElem?_getD, List.getElem?_eq_getElem hj'] at hgj'
          simp only [Option.getD_some] at hgj'
          exact hgj' ▸ List.getElem_mem hj'
        have hpos : 0 < rest.count c := List.count_pos_iff.mpr hmem
        have : (c0 == c) = true := beq_iff_eq.mpr hc0
        simp [this] at hc
        omega
    | succ i' =>
      cases j with
      | zero =>
        exfalso
        have hc0 : c0 = c := by simpa using hgj
        have hi' : i' < rest.length := by simpa using hi
        have hgi' : rest.getD i' "" = c := by simpa using hgi
        have hmem : c ∈ rest := by
          rw [List.getD_eq_getElem?_getD, List.getElem?_eq_getElem hi'] at hgi'
          simp only [Option.getD_some] at hgi'
          exact hgi' ▸ List.getElem_mem hi'
        have hpos : 0 < rest.count c := List.count_pos_iff.mpr hmem
        have : (c0 == c) = true := beq_iff_eq.mpr hc0
        simp [this] at hc
        omega
      | succ j' =>
        have := ih hrest i' j' (by simpa using hi) (by simpa using hj)
          (by simpa using hgi) (by simpa using hgj)
        omega

theorem projFixed_set {cs : List String} {w : List Cell} {c : String} (v : Cell)
    (hcount : cs.count c ≤ 1) (hfix : cs.map (getCellN cs w) = w) :
    cs.map (getCellN cs (setCellN cs w c v)) = setCellN cs w c v := by
  unfold setCellN
  cases hci : colIdx cs c with
  | none => exact hfix
  | some i =>
    have hlen : cs.length = w.length := by
      have := congrArg List.length hfix
      simpa using this
    have hilt : i < cs.length := colIdx_lt hci
    have hgi : cs.getD i "" = c := colIdx_getD hci
    apply List.ext_getElem
    · simp [hlen]
    · intro j hj1 hj2
      have hjc : j < cs.length := by simpa using hj1
      have hjw : j < w.length := by simpa using hj2
      rw [List.getElem_map]
      have hrhs : (w.set i v)[j] = (w.set i v).getD j Cell.na := by
        rw [List.getD_eq_getElem?_getD, List.getElem?_eq_getElem hj2]
        simp
      rw [hrhs]
      have hgdj : cs.getD j "" = cs[j] := by
        rw [List.getD_eq_getElem?_getD, List.getElem?_eq_getElem hjc]
        simp
      have hfixj : getCellN cs w (cs[j]) = w.getD j Cell.na := by
        have h0 := congrArg (fun l => l.getD j Cell.na) hfix
        simp only at h0
        rw [← h0, List.getD_eq_getElem?_getD, List.getElem?_map,
          List.getElem?_eq_getElem hjc]
        simp
      by_cases hcj : cs[j] = c
      · have hji : j = i :=
          count_le_one_getD_inj hcount j i hjc hilt (by rw [hgdj]; exact hcj) hgi
        subst hji
        simp only [getCellN, hcj, hci]
      · obtain ⟨k, hk⟩ := colIdx_mem (List.getElem_mem hjc)
        have hki : k ≠ i := colIdx_inj hk hci hcj
        have hij : i ≠ j := fun hij => hcj (by rw [← hgdj, ← hij]; exact hgi)
        have hlhs : getCellN cs (w.set i v) (cs[j]) = w.getD k Cell.na := by
          simp only [getCellN, hk]
          exact list_getD_set_ne w i k v (fun hik => hki hik.symm)
        have hwk : w.getD k Cell.na = w.getD j Cell.na := by
          have h1 : getCellN cs w (cs[j]) = w.getD k Cell.na := by
            simp only [getCellN, hk]
          rw [← h1, hfixj]
        rw [hlhs, hwk]
        exact (list_getD_set_ne w i j v hij).symm

/-! ### Step characterization lemmas -/

theorem uniqueColB_count {cols : List String} {c : String} (h : uniqueColB cols c = true) :
    cols.count c = 1 := by
  unfold uniqueColB at h
  simpa using h

theorem uniqueColB_mem {cols : List String} {c : String} (h : uniqueColB cols c = true) :
    c ∈ cols := by
  have h1 := uniqueColB_count h
  exact List.count_pos_iff.mp (by omega)

theorem stepParseDate_ok {t t1 : Table} (h : stepParseDate t = Except.ok t1) :
    t1.cols = t.cols ∧ uniqueColB t.cols "date" = true ∧ parseRows t.cols t.rows = some t1.rows := by
  unfold stepParseDate at h
  by_cases hu : uniqueColB t.cols "date" = true
  · rw [if_pos hu] at h
    cases hp : parseRows t.cols t.rows with
    | none => rw [hp] at h; cases h
    | some rs =>
      rw [hp] at h
      cases h
      exact ⟨rfl, hu, rfl⟩
  · rw [if_neg hu] at h
    cases h

theorem stepComplete_ok {t t2 : Table} (h : stepComplete t = Except.ok t2) :
    t2.cols = t.cols ∧ uniqueColB t.cols "datacompleteness" = true ∧
      ∀ r ∈ t2.rows, r ∈ t.rows ∧ getCellN t.cols r "datacompleteness" = Cell.str "complete" := by
  unfold stepComplete at h
  by_cases hu : uniqueColB t.cols "datacompleteness" = true
  · rw [if_pos hu] at h
    cases h
    refine ⟨rfl, hu, ?_⟩
    intro r hr
    have hm := List.mem_filter.mp hr
    exact ⟨hm.1, of_decide_eq_true hm.2⟩
  · rw [if_neg hu] at h
    cases h

theorem stepProject_ok {kc : Option (List String)} {t t3 : Table}
    (h : stepProject kc t = Except.ok t3) :
    (truthyS kc = false ∧ t3 = t) ∨
      (truthyS kc = true ∧ t3.cols = kc.getD [] ∧ (∀ c ∈ kc.getD [], c ∈ t.cols) ∧
        t3.rows = t.rows.map (fun r => (kc.getD []).map (getCellN t.cols r))) := by
  unfold stepProject at h
  by_cases hk : truthyS kc = true
  · rw [if_pos hk] at h
    cases hf : (kc.getD []).find? (fun c => !(decide (c ∈ t.cols))) with
    | some c => rw [hf] at h; cases h
    | none =>
      rw [hf] at h
      cases h
      refine Or.inr ⟨hk, rfl, ?_, rfl⟩
      intro c hc
      have := List.find?_eq_none.mp hf c hc
      simpa using this
  · rw [if_neg hk] at h
    cases h
    exact Or.inl ⟨by simpa using hk, rfl⟩

theorem stepLeagues_ok {kl : Option (List String)} {t t4 : Table}
    (h : stepLeagues kl t = Except.ok t4) :
    t4.cols = t.cols ∧ (∀ r ∈ t4.rows, r ∈ t.rows) ∧
      (truthyS kl = true → uniqueColB t.cols "league" = true ∧
        ∀ r ∈ t4.rows, getCellN t.cols r "league" ∈ (kl.getD []).map Cell.str) := by
  unfold stepLeagues at h
  by_cases hk : truthyS kl = true
  · rw [if_pos hk] at h
    by_cases hu : uniqueColB t.cols "league" = true
    · rw [if_pos hu] at h
      cases h
      refine ⟨rfl, ?_, ?_⟩
      · intro r hr
        exact (List.mem_filter.mp hr).1
      · intro _
        refine ⟨hu, ?_⟩
        intro r hr
        exact of_decide_eq_true (List.mem_filter.mp hr).2
    · rw [if_neg hu] at h
      cases h
  · rw [if_neg hk] at h
    cases h
    exact ⟨rfl, fun r hr => hr, fun hkk => absurd hkk hk⟩

theorem stepGameid_ok {t t5 : Table} (h : stepGameid t = Except.ok t5) :
    t5.cols = t.cols ∧ uniqueColB t.cols "gameid" = true ∧
      t5.rows = (t.rows.map (stripRow t.cols)).filter
        (fun r => decide (getCellN t.cols r "gameid" ≠ Cell.na)) ∧
      ∀ r ∈ t5.rows, (∃ r0 ∈ t.rows, r = stripRow t.cols r0) ∧
        getCellN t.cols r "gameid" ≠ Cell.na := by
  unfold stepGameid at h
  by_cases hu : uniqueColB t.cols "gameid" = true
  · rw [if_pos hu] at h
    cases h
    refine ⟨rfl, hu, rfl, ?_⟩
    intro r hr
    have hm := List.mem_filter.mp hr
    obtain ⟨r0, hr0, hr0e⟩ := List.mem_map.mp hm.1
    exact ⟨⟨r0, hr0, hr0e.symm⟩, of_decide_eq_true hm.2⟩
  · rw [if_neg hu] at h
    cases h

theorem idRows_sub (split_on : Split) {ki : Option (List String)} {t : Table} :
    ∀ r ∈ idRows split_on ki t, r ∈ posRows split_on t ∧
      (truthyS ki = true → getCellN t.cols r (idCol split_on) ∈ (ki.getD []).map Cell.str) := by
  intro r hr
  unfold idRows at hr
  by_cases hki : truthyS ki = true
  · rw [if_pos hki] at hr
    have hm := List.mem_filter.mp hr
    exact ⟨hm.1, fun _ => of_decide_eq_true hm.2⟩
  · rw [if_neg hki] at hr
    exact ⟨hr, fun hkk => absurd hkk hki⟩

theorem posRows_team_sub {t : Table} :
    ∀ r ∈ posRows Split.team t, r ∈ t.rows ∧
      getCellN t.cols r "position" = Cell.str "team" := by
  intro r hr
  have hm := List.mem_filter.mp hr
  exact ⟨hm.1, of_decide_eq_true hm.2⟩

theorem posRows_player_sub {t : Table} :
    ∀ r ∈ posRows Split.player t, r ∈ t.rows ∧
      getCellN t.cols r "position" ≠ Cell.str "team" := by
  intro r hr
  have hm := List.mem_filter.mp hr
  exact ⟨hm.1, of_decide_eq_true hm.2⟩

theorem stepSplit_team_ok {ki : Option (List String)} {t t6 : Table}
    (h : stepSplit Split.team ki t = Except.ok t6) :
    t6.cols = t.cols ∧
    t6.rows = (idRows Split.team ki t).filter
      (fun r => decide (getCellN t.cols r "gameid" ∉ dropGames Split.team ki t)) ∧
    uniqueColB t.cols "position" = true ∧ uniqueColB t.cols "team" = true ∧
    uniqueColB t.cols "gameid" = true ∧
    ∀ r ∈ t6.rows, r ∈ t.rows ∧
      getCellN t.cols r "position" = Cell.str "team" ∧
      (truthyS ki = true → getCellN t.cols r "team" ∈ (ki.getD []).map Cell.str) ∧
      getCellN t.cols r "team" ≠ Cell.str "unknown team" := by
  replace h : stepSplitTeam ki t = Except.ok t6 := h
  unfold stepSplitTeam at h
  by_cases hp : uniqueColB t.cols "position" = true
  swap
  · rw [if_neg hp] at h; cases h
  rw [if_pos hp] at h
  by_cases htm : uniqueColB t.cols "team" = true
  swap
  · rw [if_neg htm] at h; cases h
  rw [if_pos htm] at h
  by_cases hg : uniqueColB t.cols "gameid" = true
  swap
  · rw [if_neg hg] at h; cases h
  rw [if_pos hg] at h
  cases h
  refine ⟨rfl, rfl, hp, htm, hg, ?_⟩
  intro r hr
  have hm := List.mem_filter.mp hr
  have hnd := of_decide_eq_true hm.2
  obtain ⟨hpos0, hid⟩ := idRows_sub Split.team r hm.1
  obtain ⟨hrt, hposv⟩ := posRows_team_sub r hpos0
  refine ⟨hrt, hposv, hid, ?_⟩
  intro hunk
  apply hnd
  unfold dropGames
  apply List.mem_map.mpr
  refine ⟨r, List.mem_filter.mpr ⟨hm.1, ?_⟩, rfl⟩
  simp [idCol, unknownSentinel, hunk]

theorem stepSplit_player_ok {ki : Option (List String)} {t t6 : Table}
    (h : stepSplit Split.player ki t = Except.ok t6) :
    t6.cols = t.cols ∧
    t6.rows = (idRows Split.player ki t).filter
      (fun r => decide (getCellN t.cols r "gameid" ∉ dropGames Split.player ki t)) ∧
    uniqueColB t.cols "position" = true ∧ uniqueColB t.cols "player" = true ∧
    uniqueColB t.cols "gameid" = true ∧
    ∀ r ∈ t6.rows, r ∈ t.rows ∧
      getCellN t.cols r "position" ≠ Cell.str "team" ∧
      (truthyS ki = true → getCellN t.cols r "player" ∈ (ki.getD []).map Cell.str) ∧
      getCellN t.cols r "player" ≠ Cell.str "unknown player" := by
  replace h : stepSplitPlayer ki t = Except.ok t6 := h
  unfold stepSplitPlayer at h
  by_cases hp : uniqueColB t.cols "position" = true
  swap
  · rw [if_neg hp] at h; cases h
  rw [if_pos hp] at h
  by_cases htm : uniqueColB t.cols "player" = true
  swap
  · rw [if_neg htm] at h; cases h
  rw [if_pos htm] at h
  by_cases hg : uniqueColB t.cols "gameid" = true
  swap
  · rw [if_neg hg] at h; cases h
  rw [if_pos hg] at h
  cases h
  refine ⟨rfl, rfl, hp, htm, hg, ?_⟩
  intro r hr
  have hm := List.mem_filter.mp hr
  have hnd := of_decide_eq_true hm.2
  obtain ⟨hpos0, hid⟩ := idRows_sub Split.player r hm.1
  obtain ⟨hrt, hposv⟩ := posRows_player_sub r hpos0
  refine ⟨hrt, hposv, hid, ?_⟩
  intro hunk
  apply hnd
  unfold dropGames
  apply List.mem_map.mpr
  refine ⟨r, List.mem_filter.mpr ⟨hm.1, ?_⟩, rfl⟩
  simp [idCol, unknownSentinel, hunk]

theorem stepSplit_sub {s : Split} {ki : Option (List String)} {t t6 : Table}
    (h : stepSplit s ki t = Except.ok t6) :
    t6.cols = t.cols ∧ ∀ r ∈ t6.rows, r ∈ t.rows := by
  cases s with
  | noSplit =>
    cases h
    exact ⟨rfl, fun r hr => hr⟩
  | team =>
    obtain ⟨hc, _, _, _, _, hf⟩ := stepSplit_team_ok h
    exact ⟨hc, fun r hr => (hf r hr).1⟩
  | player =>
    obtain ⟨hc, _, _, _, _, hf⟩ := stepSplit_player_ok h
    exact ⟨hc, fun r hr => (hf r hr).1⟩

theorem cleanPre_ok {t : Table} {kl kc : Option (List String)} {t5 : Table}
    (h : cleanPre t kl kc = Except.ok t5) :
    ∃ t1 t2 t3 t4, stepParseDate t = Except.ok t1 ∧ stepComplete t1 = Except.ok t2 ∧
      stepProject kc t2 = Except.ok t3 ∧ stepLeagues kl t3 = Except.ok t4 ∧
      stepGameid t4 = Except.ok t5 := by
  unfold cleanPre at h
  cases h1 : stepParseDate t with
  | error e => rw [h1] at h; cases h
  | ok t1 =>
    rw [h1] at h
    simp only at h
    cases h2 : stepComplete t1 with
    | error e => rw [h2] at h; cases h
    | ok t2 =>
      rw [h2] at h
      simp only at h
      cases h3 : stepProject kc t2 with
      | error e => rw [h3] at h; cases h
      | ok t3 =>
        rw [h3] at h
        simp only at h
        cases h4 : stepLeagues kl t3 with
        | error e => rw [h4] at h; cases h
        | ok t4 =>
          rw [h4] at h
          simp only at h
          exact ⟨t1, t2, t3, t4, rfl, h2, h3, h4, h⟩

theorem clean_ok {t : Table} {s : Split} {ki kl kc : Option (List String)} {t6 : Table}
    (h : clean t s ki kl kc = Except.ok t6) :
    ∃ t5, cleanPre t kl kc = Except.ok t5 ∧ stepSplit s ki t5 = Except.ok t6 := by
  unfold clean at h
  cases h5 : cleanPre t kl kc with
  | error e => rw [h5] at h; cases h
  | ok t5 =>
    rw [h5] at h
    exact ⟨t5, rfl, h⟩

/-! ### The invariant established by the first five steps of `clean` -/

theorem cleanPre_inv {t : Table} {kl kc : Option (List String)} {t5 : Table}
    (h : cleanPre t kl kc = Except.ok t5) :
    "gameid" ∈ t5.cols ∧
    (truthyS kc = true → t5.cols = kc.getD []) ∧
    (truthyS kc = false → t5.cols = t.cols) ∧
    (truthyS kl = true → "league" ∈ t5.cols) ∧
    ∀ r ∈ t5.rows,
      ("datacompleteness" ∈ t5.cols →
        getCellN t5.cols r "datacompleteness" = Cell.str "complete") ∧
      ("date" ∈ t5.cols → isDtNa (getCellN t5.cols r "date") = true) ∧
      getCellN t5.cols r "gameid" ≠ Cell.na ∧
      stripCell (getCellN t5.cols r "gameid") = getCellN t5.cols r "gameid" ∧
      (truthyS kl = true → getCellN t5.cols r "league" ∈ (kl.getD []).map Cell.str) ∧
      (truthyS kc = true → (kc.getD []).map (getCellN t5.cols r) = r) := by
  obtain ⟨t1, t2, t3, t4, e1, e2, e3, e4, e5⟩ := cleanPre_ok h
  obtain ⟨hc1, hu1, hpr⟩ := stepParseDate_ok e1
  obtain ⟨hc2, hu2, h2f⟩ := stepComplete_ok e2
  have hp3 := stepProject_ok e3
  obtain ⟨hc4, h4sub, h4f⟩ := stepLeagues_ok e4
  obtain ⟨hc5, hu5, _, h5f⟩ := stepGameid_ok e5
  have hc54 : t5.cols = t4.cols := hc5
  have hc43 : t4.cols = t3.cols := hc4
  have hc53 : t5.cols = t3.cols := hc54.trans hc43
  have hc21 : t2.cols = t1.cols := hc2
  have hc10 : t1.cols = t.cols := hc1
  have hc20 : t2.cols = t.cols := hc21.trans hc10
  have hdate1 : ∀ r1 ∈ t1.rows, isDtNa (getCellN t1.cols r1 "date") = true := by
    intro r1 hr1
    obtain ⟨r0, hr0, hpd⟩ := parseRows_mem hpr r1 hr1
    rw [hc10]
    exact parseRowDate_date_isDtNa hpd
  have hmid : ∀ r4 ∈ t3.rows, ∃ r2 ∈ t2.rows,
      ∀ c, c ∈ t3.cols → getCellN t3.cols r4 c = getCellN t2.cols r2 c := by
    intro r4 hr4
    rcases hp3 with ⟨hkf, ht3⟩ | ⟨hkt, hcols3, hsub3, hrows3⟩
    · subst ht3
      exact ⟨r4, hr4, fun c _ => rfl⟩
    · rw [hrows3] at hr4
      obtain ⟨r2, hr2, hr2e⟩ := List.mem_map.mp hr4
      refine ⟨r2, hr2, ?_⟩
      intro c hc
      rw [← hr2e]
      rw [hcols3] at hc ⊢
      exact getCellN_map_self _ _ hc
  have hfix3 : truthyS kc = true → ∀ r4 ∈ t3.rows,
      (kc.getD []).map (getCellN t3.cols r4) = r4 := by
    intro hkt r4 hr4
    rcases hp3 with ⟨hkf, _⟩ | ⟨_, hcols3, hsub3, hrows3⟩
    · rw [hkt] at hkf; cases hkf
    · rw [hrows3] at hr4
      obtain ⟨r2, hr2, hr2e⟩ := List.mem_map.mp hr4
      rw [← hr2e, hcols3]
      apply List.map_congr_left
      intro c hc
      exact getCellN_map_self _ _ hc
  have htop2 : truthyS kc = true → t5.cols = kc.getD [] := by
    intro hkt
    rcases hp3 with ⟨hkf, _⟩ | ⟨_, hcols3, _, _⟩
    · rw [hkt] at hkf; cases hkf
    · rw [hc53, hcols3]
  have htop3 : truthyS kc = false → t5.cols = t.cols := by
    intro hkf
    rcases hp3 with ⟨_, ht3⟩ | ⟨hkt, _, _, _⟩
    · rw [hc53, ht3, hc20]
    · rw [hkt] at hkf; cases hkf
  have htop4 : truthyS kl = true → "league" ∈ t5.cols := by
    intro hkl
    rw [hc53]
    exact uniqueColB_mem (h4f hkl).1
  refine ⟨by rw [hc54]; exact uniqueColB_mem hu5, htop2, htop3, htop4, ?_⟩
  intro r hr
  obtain ⟨⟨r4, hr4, hr4e⟩, hgne⟩ := h5f r hr
  have hr4sub : r4 ∈ t3.rows := h4sub r4 hr4
  obtain ⟨r2, hr2, hcell⟩ := hmid r4 hr4sub
  obtain ⟨hr21, hcomp⟩ := h2f r2 hr2
  have htrans : ∀ c, c ≠ "gameid" → c ∈ t5.cols →
      getCellN t5.cols r c = getCellN t2.cols r2 c := by
    intro c hcg hcmem
    rw [hc54, hr4e, stripRow_other t4.cols r4 c hcg, hc43]
    exact hcell c (by rw [← hc53]; exact hcmem)
  refine ⟨?_, ?_, ?_, ?_, ?_, ?_⟩
  · intro hdc
    rw [htrans _ (by decide) hdc, hc21]
    exact hcomp
  · intro hdt
    rw [htrans _ (by decide) hdt, hc21]
    exact hdate1 r2 hr21
  · rw [hc54]
    exact hgne
  · rw [hc54, hr4e, getCellN_stripRow]
    exact stripCell_idem _
  · intro hkl
    rw [hc54, hr4e, stripRow_other t4.cols r4 "league" (by decide), hc43]
    exact (h4f hkl).2 r4 hr4
  · intro hkt
    have hc4cs : t4.cols = kc.getD [] := by
      rw [← hc54]
      exact htop2 hkt
    have hcols3Q : t3.cols = kc.getD [] := hc53.symm.trans (htop2 hkt)
    have hfixr4 : (kc.getD []).map (getCellN (kc.getD []) r4) = r4 := by
      have h0 := hfix3 hkt r4 hr4sub
      rw [hcols3Q] at h0
      exact h0
    have hcount : (kc.getD []).count "gameid" ≤ 1 := by
      have hcnt := uniqueColB_count hu5
      rw [hc4cs] at hcnt
      omega
    rw [htop2 hkt, hr4e, hc4cs]
    unfold stripRow
    exact projFixed_set _ hcount hfixr4

/-! ### Concrete tables used as witnesses and counterexamples -/

/-- A one-row table whose `gameid` consists only of whitespace. -/
def cexT1 : Table := ⟨["date", "datacompleteness", "gameid"],
  [[Cell.str "2020/01/01 00:00:00", Cell.str "complete", Cell.str "   "]]⟩

/-- The table `clean` returns on `cexT1`: the whitespace-only `gameid` survives
as the empty string. -/
def cexT1out : Table := ⟨["date", "datacompleteness", "gameid"],
  [[Cell.dt 20200101000000, Cell.str "complete", Cell.str ""]]⟩

/-- The single row of `cexT1out`. -/
def cexT1row : List Cell := [Cell.dt 20200101000000, Cell.str "complete", Cell.str ""]

/-! ### Claim C1 -/

/-- C1 counterexample: the claim says rows whose `gameid` is only whitespace do
not appear in the output and that every output `gameid` is non-empty; but on
`cexT1` (one complete row with `gameid = "   "`) the returned table keeps the
row, with `gameid` equal to the empty string — the code strips first and then
drops only null (`NaN`) game ids, and `"".notna()` holds in pandas. -/
theorem C1_counterexample :
    ((clean cexT1 Split.noSplit none none none).toOption.map
      (fun t' => t'.rows.map (fun r => getCellN t'.cols r "gameid"))) =
      some [Cell.str ""] := by decide

/-- C1 (amended): for every input table and every split selector, whenever
`clean` returns a table, the `gameid` column is retained, every output row has
a non-null (`NaN`-free) and whitespace-stripped `gameid`, and — whenever the
`datacompleteness` column is retained in the output — `datacompleteness` equal
to `"complete"`.  (The original claim's "non-empty gameid" is weakened to
"non-null": whitespace-only game ids survive as empty strings.) -/
theorem C1_amended {t t' : Table} {s : Split} {ki kl kc : Option (List String)}
    (h : clean t s ki kl kc = Except.ok t') :
    "gameid" ∈ t'.cols ∧
    ∀ r ∈ t'.rows,
      ("datacompleteness" ∈ t'.cols →
        getCellN t'.cols r "datacompleteness" = Cell.str "complete") ∧
      getCellN t'.cols r "gameid" ≠ Cell.na ∧
      stripCell (getCellN t'.cols r "gameid") = getCellN t'.cols r "gameid" := by
  obtain ⟨t5, hpre, hsplit⟩ := clean_ok h
  obtain ⟨hg5, _, _, _, hrows5⟩ := cleanPre_inv hpre
  obtain ⟨hcols, hsub⟩ := stepSplit_sub hsplit
  refine ⟨by rw [hcols]; exact hg5, ?_⟩
  intro r hr
  have hr5 := hsub r hr
  obtain ⟨hdc, _, hgna, hgstrip, _, _⟩ := hrows5 r hr5
  rw [hcols]
  exact ⟨hdc, hgna, hgstrip⟩

/-- Witness for C1 (amended) at the concrete table `cexT1`. -/
theorem C1_amended_witness : getCellN cexT1out.cols cexT1row "gameid" ≠ Cell.na :=
  ((C1_amended (show clean cexT1 Split.noSplit none none none = Except.ok cexT1out by
    decide)).2 cexT1row (by decide)).2.1

/-! ### Claim C2 -/

/-- C2: whole-game exclusion.  If `clean` with split selector `team` and no
(truthy) identity allow-list succeeds, then no row of the output shares a
`gameid` with any team-level row of the pre-split intermediate table whose
`team` is `"unknown team"`: the whole game is excluded, not only the offending
row. -/
theorem C2_thm {t tp t' : Table} {ki kl kc : Option (List String)}
    (hclean : clean t Split.team ki kl kc = Except.ok t')
    (hpre : cleanPre t kl kc = Except.ok tp)
    (hki : truthyS ki = false) :
    ∀ r ∈ t'.rows, ∀ r2 ∈ tp.rows,
      getCellN tp.cols r2 "position" = Cell.str "team" →
      getCellN tp.cols r2 "team" = Cell.str "unknown team" →
      getCellN t'.cols r "gameid" ≠ getCellN tp.cols r2 "gameid" := by
  obtain ⟨t5, hpre5, hsplit⟩ := clean_ok hclean
  rw [hpre5] at hpre
  cases hpre
  obtain ⟨hcols, hrows, hp, htm, hg, hf⟩ := stepSplit_team_ok hsplit
  intro r hr r2 hr2 hpos hunk
  rw [hrows] at hr
  have hm := List.mem_filter.mp hr
  have hnd := of_decide_eq_true hm.2
  intro heq
  apply hnd
  rw [hcols] at heq
  rw [heq]
  unfold dropGames
  apply List.mem_map.mpr
  refine ⟨r2, List.mem_filter.mpr ⟨?_, ?_⟩, rfl⟩
  · unfold idRows
    rw [if_neg (by simp [hki])]
    exact List.mem_filter.mpr ⟨hr2, by simp [hpos]⟩
  · simp [idCol, unknownSentinel, hunk]

/-- The whole-game exclusion scenario of the spec: two team-level rows of game
`G1` (one `unknown team`, one `TeamA`) and one team-level row of game `G2`. -/
def tblC2 : Table := ⟨["date", "datacompleteness", "gameid", "position", "team"],
  [[Cell.str "2020/01/01 00:00:00", Cell.str "complete", Cell.str "G1", Cell.str "team",
    Cell.str "unknown team"],
   [Cell.str "2020/01/01 00:00:00", Cell.str "complete", Cell.str "G1", Cell.str "team",
    Cell.str "TeamA"],
   [Cell.str "2020/01/01 00:00:00", Cell.str "complete", Cell.str "G2", Cell.str "team",
    Cell.str "TeamB"]]⟩

/-- Table `tblC2` after the first five steps of `clean` (dates parsed). -/
def tblC2pre : Table := ⟨["date", "datacompleteness", "gameid", "position", "team"],
  [[Cell.dt 20200101000000, Cell.str "complete", Cell.str "G1", Cell.str "team",
    Cell.str "unknown team"],
   [Cell.dt 20200101000000, Cell.str "complete", Cell.str "G1", Cell.str "team",
    Cell.str "TeamA"],
   [Cell.dt 20200101000000, Cell.str "complete", Cell.str "G2", Cell.str "team",
    Cell.str "TeamB"]]⟩

/-- Table `tblC2` after `clean` with split selector `team`: only the `G2` row
survives — BOTH `G1` rows are gone. -/
def tblC2out : Table := ⟨["date", "datacompleteness", "gameid", "position", "team"],
  [[Cell.dt 20200101000000, Cell.str "complete", Cell.str "G2", Cell.str "team",
    Cell.str "TeamB"]]⟩

/-- The unknown-team `G1` row of `tblC2pre`. -/
def rowC2unknown : List Cell := [Cell.dt 20200101000000, Cell.str "complete", Cell.str "G1",
  Cell.str "team", Cell.str "unknown team"]

/-- The surviving `G2` row of `tblC2out`. -/
def rowC2keep : List Cell := [Cell.dt 20200101000000, Cell.str "complete", Cell.str "G2",
  Cell.str "team", Cell.str "TeamB"]

/-- Witness for C2 at the spec's concrete scenario. -/
theorem C2_witness :
    getCellN tblC2out.cols rowC2keep "gameid" ≠ getCellN tblC2pre.cols rowC2unknown "gameid" :=
  C2_thm (show clean tblC2 Split.team none none none = Except.ok tblC2out by decide)
    (show cleanPre tblC2 none none = Except.ok tblC2pre by decide)
    (by decide) rowC2keep (by decide) rowC2unknown (by decide) (by decide) (by decide)

/-! ### Claim C4 (counterexample half) -/

/-- A one-row table on which `clean` with `keep_columns = ["gameid"]` succeeds. -/
def tblC4 : Table := ⟨["date", "datacompleteness", "gameid"],
  [[Cell.str "2020/01/01 00:00:00", Cell.str "complete", Cell.str "g1"]]⟩

/-- The result of normalizing `tblC4` with `keep_columns = ["gameid"]`. -/
def tblC4out : Table := ⟨["gameid"], [[Cell.str "g1"]]⟩

/-- C4 counterexample: the first application of `clean` succeeds, but applying
`clean` again with the same parameters fails with a missing-column error on
`date`, because the column projection dropped the `date` column that the first
pipeline step reads.  So `normalize(normalize(T, p), p) = normalize(T, p)`
fails even though `normalize(T, p)` succeeds. -/
theorem C4_counterexample :
    clean tblC4 Split.noSplit none none (some ["gameid"]) = Except.ok tblC4out ∧
    clean tblC4out Split.noSplit none none (some ["gameid"]) =
      Except.error (CleanErr.missingColumn "date") := ⟨by decide, by decide⟩

/-! ### Claim C5 -/

/-- C5 is refuted by the code: the years-normalization block converts a bare
non-list argument into a list and keeps only `int` instances, so a single year
passed as a STRING is silently dropped (nothing is downloaded or read), while
a single `int` year is processed exactly like a one-element list — contrary to
the function's own docstring ("A string or list of strings containing years"). -/
theorem C5_bug :
    yearsNorm (YearsArg.strYear "2022") = [] ∧
    yearsNorm (YearsArg.intYear 2022) = ["2022"] ∧
    (∀ net dates fs directory delete,
      download net dates directory (YearsArg.strYear "2022") delete fs = DLOut.ok fs) ∧
    (∀ fs directory, read fs directory (YearsArg.strYear "2022") = emptyTable) := by
  refine ⟨rfl, rfl, ?_, ?_⟩
  · intro net dates fs directory delete
    rfl
  · intro fs directory
    rfl

/-! ### Claim C8 -/

/-- C8 counterexample: `clean` mutates its caller's table — the very first
statement writes the parsed `date` column back into the caller's frame — even
on a call that returns normally. -/
theorem C8_counterexample :
    cleanCallerAfter cexT1 ≠ cexT1 ∧
    (clean cexT1 Split.noSplit none none none).toOption.isSome = true :=
  ⟨by decide, by decide⟩

/-- C8 (amended): the only mutation `clean` performs on its input is writing
the parsed `date` column back in place.  The caller's table keeps its column
list, its row count, and every cell outside the `date` column; when date
parsing (or the `date` column access) fails, the input is untouched. -/
theorem C8_amended (t : Table) :
    (cleanCallerAfter t).cols = t.cols ∧
    (cleanCallerAfter t).rows.length = t.rows.length ∧
    (∀ c, c ≠ "date" → ∀ i : Nat,
      getCellN (cleanCallerAfter t).cols ((cleanCallerAfter t).rows.getD i []) c =
        getCellN t.cols (t.rows.getD i []) c) := by
  unfold cleanCallerAfter
  cases h1 : stepParseDate t with
  | error e => exact ⟨rfl, rfl, fun c _ i => rfl⟩
  | ok t1 =>
    obtain ⟨hc1, _, hpr⟩ := stepParseDate_ok h1
    refine ⟨hc1, parseRows_length hpr, ?_⟩
    intro c hc i
    rw [hc1]
    rcases parseRows_rel hpr i with ⟨hle1, hle2⟩ | hrel
    · have e1 : t1.rows.getD i [] = [] := by
        rw [List.getD_eq_getElem?_getD, List.getElem?_eq_none hle2, Option.getD_none]
      have e2 : t.rows.getD i [] = [] := by
        rw [List.getD_eq_getElem?_getD, List.getElem?_eq_none hle1, Option.getD_none]
      rw [e1, e2]
    · exact parseRowDate_other hrel hc

/-- Witness for C8 (amended): the `gameid` cell of the mutated caller table is
unchanged on `cexT1`. -/
theorem C8_amended_witness :
    getCellN (cleanCallerAfter cexT1).cols ((cleanCallerAfter cexT1).rows.getD 0 []) "gameid" =
      getCellN cexT1.cols (cexT1.rows.getD 0 []) "gameid" :=
  (C8_amended cexT1).2.2 "gameid" (by decide) 0

/-! ### Claim C4 (amended half): idempotence of `clean` -/

theorem table_eq {a b : Table} (h1 : a.cols = b.cols) (h2 : a.rows = b.rows) : a = b := by
  cases a
  cases b
  simp only at h1 h2
  rw [h1, h2]

theorem stepComplete_shape {t t2 : Table} (h : stepComplete t = Except.ok t2) :
    t2.cols = t.cols ∧ t2.rows = t.rows.filter
      (fun r => decide (getCellN t.cols r "datacompleteness" = Cell.str "complete")) := by
  unfold stepComplete at h
  by_cases hu : uniqueColB t.cols "datacompleteness" = true
  · rw [if_pos hu] at h
    cases h
    exact ⟨rfl, rfl⟩
  · rw [if_neg hu] at h
    cases h

theorem stepLeagues_shape {kl : Option (List String)} {t t4 : Table}
    (h : stepLeagues kl t = Except.ok t4) :
    (truthyS kl = false ∧ t4 = t) ∨
      (truthyS kl = true ∧ t4.cols = t.cols ∧ t4.rows = t.rows.filter
        (fun r => decide (getCellN t.cols r "league" ∈ (kl.getD []).map Cell.str))) := by
  unfold stepLeagues at h
  by_cases hk : truthyS kl = true
  · rw [if_pos hk] at h
    by_cases hu : uniqueColB t.cols "league" = true
    · rw [if_pos hu] at h
      cases h
      exact Or.inr ⟨hk, rfl, rfl⟩
    · rw [if_neg hu] at h
      cases h
  · rw [if_neg hk] at h
    cases h
    exact Or.inl ⟨by simpa using hk, rfl⟩

/-- C4 (amended): normalization is idempotent whenever the SECOND application
also succeeds: if `clean t p = ok t'` and `clean t' p = ok t''` with the same
parameters `p`, then `t'' = t'`.  (As `C4_counterexample` shows, the second
application can fail — with `MissingColumnError` on `date` — when the column
allow-list drops columns the pipeline itself reads, so the claim as stated,
which assumes only the first application's success, is false.) -/
theorem C4_amended {t t' t'' : Table} {s : Split} {ki kl kc : Option (List String)}
    (hin : clean t s ki kl kc = Except.ok t')
    (hout : clean t' s ki kl kc = Except.ok t'') : t'' = t' := by
  obtain ⟨t5i, hprei, hspliti⟩ := clean_ok hin
  obtain ⟨hg5i, hkct, hkcf, hklm, hrows5i⟩ := cleanPre_inv hprei
  obtain ⟨hcolsi, hsubi⟩ := stepSplit_sub hspliti
  have hINV : ∀ r ∈ t'.rows,
      ("datacompleteness" ∈ t'.cols →
        getCellN t'.cols r "datacompleteness" = Cell.str "complete") ∧
      ("date" ∈ t'.cols → isDtNa (getCellN t'.cols r "date") = true) ∧
      getCellN t'.cols r "gameid" ≠ Cell.na ∧
      stripCell (getCellN t'.cols r "gameid") = getCellN t'.cols r "gameid" ∧
      (truthyS kl = true → getCellN t'.cols r "league" ∈ (kl.getD []).map Cell.str) ∧
      (truthyS kc = true → (kc.getD []).map (getCellN t'.cols r) = r) := by
    intro r hr
    rw [hcolsi]
    exact hrows5i r (hsubi r hr)
  have hcolkc : truthyS kc = true → t'.cols = kc.getD [] := by
    intro hkt
    rw [hcolsi]
    exact hkct hkt
  obtain ⟨t5o, hpreo, hsplito⟩ := clean_ok hout
  obtain ⟨u1, u2, u3, u4, f1, f2, f3, f4, f5⟩ := cleanPre_ok hpreo
  obtain ⟨g1c, g1u, g1p⟩ := stepParseDate_ok f1
  have hdatemem : "date" ∈ t'.cols := uniqueColB_mem g1u
  have hu1 : u1 = t' := by
    apply table_eq g1c
    have hself : parseRows t'.cols t'.rows = some t'.rows :=
      parseRows_self (fun r hr => parseRowDate_self ((hINV r hr).2.1 hdatemem))
    rw [g1p] at hself
    exact Option.some.inj hself
  rw [hu1] at f2
  obtain ⟨g2c, g2r⟩ := stepComplete_shape f2
  obtain ⟨_, g2u, _⟩ := stepComplete_ok f2
  have hdcmem : "datacompleteness" ∈ t'.cols := uniqueColB_mem g2u
  have hu2 : u2 = t' := by
    apply table_eq g2c
    rw [g2r]
    apply List.filter_eq_self.mpr
    intro r hr
    exact decide_eq_true ((hINV r hr).1 hdcmem)
  rw [hu2] at f3
  have hu3 : u3 = t' := by
    rcases stepProject_ok f3 with ⟨_, h3⟩ | ⟨hkt, g3c, _, g3r⟩
    · exact h3
    · apply table_eq (g3c.trans (hcolkc hkt).symm)
      rw [g3r]
      have hmap : t'.rows.map (fun r => (kc.getD []).map (getCellN t'.cols r)) =
          t'.rows.map id :=
        List.map_congr_left (fun r hr => (hINV r hr).2.2.2.2.2 hkt)
      rw [hmap, List.map_id]
  rw [hu3] at f4
  have hu4 : u4 = t' := by
    rcases stepLeagues_shape f4 with ⟨_, h4⟩ | ⟨hkt, g4c, g4r⟩
    · exact h4
    · apply table_eq g4c
      rw [g4r]
      apply List.filter_eq_self.mpr
      intro r hr
      exact decide_eq_true ((hINV r hr).2.2.2.2.1 hkt)
  rw [hu4] at f5
  obtain ⟨g5c, _, g5r, _⟩ := stepGameid_ok f5
  have hu5 : t5o = t' := by
    apply table_eq g5c
    rw [g5r]
    have hmap : t'.rows.map (stripRow t'.cols) = t'.rows.map id :=
      List.map_congr_left (fun r hr => stripRow_self ((hINV r hr).2.2.2.1))
    rw [hmap, List.map_id]
    apply List.filter_eq_self.mpr
    intro r hr
    exact decide_eq_true ((hINV r hr).2.2.1)
  rw [hu5] at hsplito
  cases s with
  | noSplit =>
    cases hsplito
    rfl
  | team =>
    obtain ⟨_, _, _, _, _, hfT⟩ := stepSplit_team_ok hspliti
    have hfI : ∀ r ∈ t'.rows,
        getCellN t'.cols r "position" = Cell.str "team" ∧
        (truthyS ki = true → getCellN t'.cols r "team" ∈ (ki.getD []).map Cell.str) ∧
        getCellN t'.cols r "team" ≠ Cell.str "unknown team" := by
      intro r hr
      have hx := hfT r hr
      rw [hcolsi]
      exact ⟨hx.2.1, hx.2.2.1, hx.2.2.2⟩
    obtain ⟨hoC, hoR, _, _, _, _⟩ := stepSplit_team_ok hsplito
    have hpos : posRows Split.team t' = t'.rows := by
      unfold posRows
      apply List.filter_eq_self.mpr
      intro r hr
      exact decide_eq_true (hfI r hr).1
    have hid : idRows Split.team ki t' = t'.rows := by
      unfold idRows
      by_cases hkt : truthyS ki = true
      · rw [if_pos hkt, hpos]
        apply List.filter_eq_self.mpr
        intro r hr
        exact decide_eq_true ((hfI r hr).2.1 hkt)
      · rw [if_neg hkt]
        exact hpos
    have hdrop : dropGames Split.team ki t' = [] := by
      unfold dropGames
      rw [hid]
      have hfe : t'.rows.filter (fun r => decide (getCellN t'.cols r (idCol Split.team) =
          Cell.str (unknownSentinel Split.team))) = [] := by
        apply List.filter_eq_nil_iff.mpr
        intro r hr
        simp only [idCol, unknownSentinel]
        simp [(hfI r hr).2.2]
      rw [hfe]
      rfl
    apply table_eq hoC
    rw [hoR, hid, hdrop]
    apply List.filter_eq_self.mpr
    intro r hr
    simp
  | player =>
    obtain ⟨_, _, _, _, _, hfT⟩ := stepSplit_player_ok hspliti
    have hfI : ∀ r ∈ t'.rows,
        getCellN t'.cols r "position" ≠ Cell.str "team" ∧
        (truthyS ki = true → getCellN t'.cols r "player" ∈ (ki.getD []).map Cell.str) ∧
        getCellN t'.cols r "player" ≠ Cell.str "unknown player" := by
      intro r hr
      have hx := hfT r hr
      rw [hcolsi]
      exact ⟨hx.2.1, hx.2.2.1, hx.2.2.2⟩
    obtain ⟨hoC, hoR, _, _, _, _⟩ := stepSplit_player_ok hsplito
    have hpos : posRows Split.player t' = t'.rows := by
      unfold posRows
      apply List.filter_eq_self.mpr
      intro r hr
      exact decide_eq_true (hfI r hr).1
    have hid : idRows Split.player ki t' = t'.rows := by
      unfold idRows
      by_cases hkt : truthyS ki = true
      · rw [if_pos hkt, hpos]
        apply List.filter_eq_self.mpr
        intro r hr
        exact decide_eq_true ((hfI r hr).2.1 hkt)
      · rw [if_neg hkt]
        exact hpos
    have hdrop : dropGames Split.player ki t' = [] := by
      unfold dropGames
      rw [hid]
      have hfe : t'.rows.filter (fun r => decide (getCellN t'.cols r (idCol Split.player) =
          Cell.str (unknownSentinel Split.player))) = [] := by
        apply List.filter_eq_nil_iff.mpr
        intro r hr
        simp only [idCol, unknownSentinel]
        simp [(hfI r hr).2.2]
      rw [hfe]
      rfl
    apply table_eq hoC
    rw [hoR, hid, hdrop]
    apply List.filter_eq_self.mpr
    intro r hr
    simp

/-- The already-normalized form of `tblC4` under empty filter parameters. -/
def tblC4b : Table := ⟨["date", "datacompleteness", "gameid"],
  [[Cell.dt 20200101000000, Cell.str "complete", Cell.str "g1"]]⟩

/-- Witness for C4 (amended): both applications succeed on `tblC4` with no
filters, and re-normalizing is the identity. -/
theorem C4_amended_witness : tblC4b = tblC4b :=
  C4_amended
    (show clean tblC4 Split.noSplit none none none = Except.ok tblC4b by decide)
    (show clean tblC4b Split.noSplit none none none = Except.ok tblC4b by decide)

/-! ### Filesystem lemmas for the acquirer -/

theorem str_data_eq {a b : String} (h : a.data = b.data) : a = b :=
  congrArg String.mk h

theorem strAppend_assoc (a b c : String) : (a ++ b) ++ c = a ++ (b ++ c) := by
  apply str_data_eq
  rw [String.data_append, String.data_append, String.data_append, String.data_append,
    List.append_assoc]

theorem strStartsWith_append (a b : String) : strStartsWith (a ++ b) a = true := by
  unfold strStartsWith
  rw [String.data_append]
  exact List.isPrefixOf_iff_prefix.mpr ⟨b.data, rfl⟩

theorem strDropLen_append (a b : String) : strDropLen a.length (a ++ b) = b := by
  apply str_data_eq
  unfold strDropLen
  show (a ++ b).data.drop a.length = b.data
  rw [String.data_append, show a.length = a.data.length from rfl]
  exact List.drop_left _ _

theorem mem_listdir_iff {fs : FS} {n : String} :
    n ∈ listdir fs ↔ ∃ kv ∈ fs.files, kv.1 = fs.cwd ++ n := by
  unfold listdir
  rw [List.mem_filterMap]
  constructor
  · rintro ⟨kv, hkv, hsome⟩
    by_cases hp : strStartsWith kv.1 fs.cwd = true
    · rw [if_pos hp] at hsome
      simp only [Option.some.injEq] at hsome
      refine ⟨kv, hkv, ?_⟩
      unfold strStartsWith at hp
      obtain ⟨tl, htl⟩ := List.isPrefixOf_iff_prefix.mp hp
      subst hsome
      apply str_data_eq
      rw [String.data_append]
      show kv.1.data = fs.cwd.data ++ kv.1.data.drop fs.cwd.length
      rw [show fs.cwd.length = fs.cwd.data.length from rfl]
      rw [← htl, List.drop_left]
    · rw [if_neg hp] at hsome
      cases hsome
  · rintro ⟨kv, hkv, hkv1⟩
    refine ⟨kv, hkv, ?_⟩
    rw [hkv1, if_pos (strStartsWith_append fs.cwd n)]
    rw [strDropLen_append]

theorem mem_fsRemove {fs : FS} {p : String} {kv : String × Table} :
    kv ∈ (fsRemove fs p).files ↔ kv ∈ fs.files ∧ kv.1 ≠ p := by
  unfold fsRemove
  simp [List.mem_filter]

theorem foldl_fsRemove_cwd (cwd : String) (L : List String) :
    ∀ a : FS, (L.foldl (fun a f => fsRemove a (cwd ++ f)) a).cwd = a.cwd := by
  induction L with
  | nil => intro a; rfl
  | cons x xs ih =>
    intro a
    rw [List.foldl_cons, ih (fsRemove a (cwd ++ x))]
    rfl

theorem mem_foldl_fsRemove (cwd : String) (L : List String) :
    ∀ (a : FS) (kv : String × Table),
      kv ∈ (L.foldl (fun a f => fsRemove a (cwd ++ f)) a).files ↔
        kv ∈ a.files ∧ ∀ f ∈ L, kv.1 ≠ cwd ++ f := by
  induction L with
  | nil =>
    intro a kv
    simp
  | cons x xs ih =>
    intro a kv
    rw [List.foldl_cons, ih, mem_fsRemove]
    constructor
    · rintro ⟨⟨h1, h2⟩, h3⟩
      refine ⟨h1, ?_⟩
      intro f hf
      rcases List.mem_cons.mp hf with rfl | hf2
      · exact h2
      · exact h3 f hf2
    · rintro ⟨h1, h2⟩
      exact ⟨⟨h1, h2 x (List.mem_cons_self x xs)⟩, fun f hf => h2 f (List.mem_cons_of_mem _ hf)⟩

theorem delStale_cwd (fs : FS) (year : String) : (delStale fs year).cwd = fs.cwd := by
  unfold delStale
  exact foldl_fsRemove_cwd fs.cwd _ fs

theorem delStale_clears (fs : FS) (year : String) :
    ∀ n, strStartsWith n (yearStem year) = true → n ∉ listdir (delStale fs year) := by
  intro n hpre hmem
  obtain ⟨kv, hkv, hkey⟩ := mem_listdir_iff.mp hmem
  rw [delStale_cwd] at hkey
  unfold delStale at hkv
  rw [mem_foldl_fsRemove] at hkv
  obtain ⟨hkv0, hnot⟩ := hkv
  have hmem0 : n ∈ listdir fs := mem_listdir_iff.mpr ⟨kv, hkv0, hkey⟩
  have hcf : n ∈ currentFilesOf fs year := by
    unfold currentFilesOf
    exact List.mem_filter.mpr ⟨hmem0, hpre⟩
  exact hnot n hcf hkey

/-! ### Claim C3 -/

/-- C3: within a year's acquisition (deletion enabled and today's file absent
from the working-directory listing), if the whole today attempt — fetch,
decode, parse or save — fails, then: (a) when the yesterday fetch parses and
the save succeeds, `download` returns normally and the local file at
yesterday's filename holds yesterday's parsed data; (b) when the yesterday
attempt also fails in any way, the exception propagates to the caller
uncaught. -/
theorem C3_thm (net : Net) (dates : Dates) (directory year : String) (fs : FS)
    (habs : (yearStem year ++ dates.today ++ ".csv") ∉ currentFilesOf fs year)
    (htoday : attemptDate net (delStale fs year) directory year dates.today = none) :
    (∀ data : Table,
      fetchCsv net (urlBase ++ yearStem year ++ dates.yesterday ++ ".csv") = some data →
      net.saveOk (directory ++ yearStem year ++ dates.yesterday ++ ".csv") = true →
      downloadYear net dates directory true year fs =
        DLOut.ok (fsWrite (delStale fs year)
          (directory ++ yearStem year ++ dates.yesterday ++ ".csv") data) ∧
      fsGet (fsWrite (delStale fs year)
          (directory ++ yearStem year ++ dates.yesterday ++ ".csv") data)
        (directory ++ yearStem year ++ dates.yesterday ++ ".csv") = some data) ∧
    (attemptDate net (delStale fs year) directory year dates.yesterday = none →
      downloadYear net dates directory true year fs = DLOut.err (delStale fs year)) := by
  have hcond : (true && !(decide ((yearStem year ++ dates.today ++ ".csv") ∈
      currentFilesOf fs year))) = true := by
    simp [habs]
  constructor
  · intro data hfetch hsave
    constructor
    · unfold downloadYear
      rw [if_pos hcond, htoday]
      have hy : attemptDate net (delStale fs year) directory year dates.yesterday =
          some (fsWrite (delStale fs year)
            (directory ++ yearStem year ++ dates.yesterday ++ ".csv") data) := by
        unfold attemptDate
        rw [hfetch]
        show (if net.saveOk (directory ++ yearStem year ++ dates.yesterday ++ ".csv") = true then
            some (fsWrite (delStale fs year)
              (directory ++ yearStem year ++ dates.yesterday ++ ".csv") data)
          else none) = _
        rw [if_pos hsave]
      rw [hy]
    · unfold fsGet fsWrite
      simp
  · intro hyest
    unfold downloadYear
    rw [if_pos hcond, htoday, hyest]

/-! ### Claim C10 -/

/-- C10: with deletion enabled and today's file absent, all working-directory
files with the year's prefix are deleted BEFORE any fetch; if both the today
and the yesterday attempts fail, the exception propagates with the filesystem
left in the deleted state (`delStale fs year`), in which no file with the
year's prefix remains. -/
theorem C10_thm (net : Net) (dates : Dates) (directory year : String) (fs : FS)
    (habs : (yearStem year ++ dates.today ++ ".csv") ∉ currentFilesOf fs year)
    (htoday : attemptDate net (delStale fs year) directory year dates.today = none)
    (hyest : attemptDate net (delStale fs year) directory year dates.yesterday = none) :
    downloadYear net dates directory true year fs = DLOut.err (delStale fs year) ∧
    ∀ n, strStartsWith n (yearStem year) = true → n ∉ listdir (delStale fs year) := by
  refine ⟨?_, delStale_clears fs year⟩
  unfold downloadYear
  have hcond : (true && !(decide ((yearStem year ++ dates.today ++ ".csv") ∈
      currentFilesOf fs year))) = true := by
    simp [habs]
  rw [if_pos hcond, htoday, hyest]

/-! ### Concrete acquirer scenarios -/

/-- The table stored in a stale local file. -/
def tblStale : Table := ⟨["gameid"], [[Cell.str "old"]]⟩

/-- The table served by the remote for a fresh file. -/
def tblFresh : Table := ⟨["gameid"], [[Cell.str "new"]]⟩

/-- Concrete process dates: today `20230102`, yesterday `20230101`. -/
def datesW : Dates := ⟨"20230102", "20230101"⟩

/-- A remote that serves today's 2022 file (and nothing else); decoding and
parsing succeed on its payload, and every save succeeds. -/
def netW : Net :=
  ⟨fun u => if u = urlBase ++ yearStem "2022" ++ "20230102.csv" then some [1] else none,
   fun b => if b = [1] then some "csvtext" else none,
   fun s => if s = "csvtext" then some tblFresh else none,
   fun _ => true⟩

/-- A remote that serves only yesterday's 2022 file. -/
def netY : Net :=
  ⟨fun u => if u = urlBase ++ yearStem "2022" ++ "20230101.csv" then some [1] else none,
   fun b => if b = [1] then some "csvtext" else none,
   fun s => if s = "csvtext" then some tblFresh else none,
   fun _ => true⟩

/-- A remote on which every fetch fails. -/
def netNone : Net := ⟨fun _ => none, fun _ => none, fun _ => none, fun _ => false⟩

/-- An empty working directory. -/
def fsEmptyW : FS := ⟨"/cwd/", []⟩

/-- Witness for C3: with today's remote file failing and yesterday's present,
the run saves yesterday's data under yesterday's filename. -/
theorem C3_witness :
    downloadYear netY datesW "/data/" true "2022" fsEmptyW =
      DLOut.ok (fsWrite (delStale fsEmptyW "2022")
        ("/data/" ++ yearStem "2022" ++ "20230101.csv") tblFresh) :=
  ((C3_thm netY datesW "/data/" "2022" fsEmptyW (by decide) (by decide)).1
    tblFresh (by decide) (by decide)).1

/-- A working directory already holding an old 2022 file (for C10). -/
def fsC10W : FS := ⟨"/cwd/", [("/cwd/" ++ yearStem "2022" ++ "20220101.csv", tblStale)]⟩

/-- Witness for C10: both attempts fail and the error propagates with the
stale files already deleted. -/
theorem C10_witness :
    downloadYear netNone datesW "/data/" true "2022" fsC10W =
      DLOut.err (delStale fsC10W "2022") :=
  (C10_thm netNone datesW "/data/" "2022" fsC10W (by decide) (by decide) (by decide)).1

/-! ### Claim C6 -/

/-- C6 divergence evidence: with the current-date file absent locally and the
remote file available, `download` performs NO fetch at all when `delete` is
`False` (the filesystem is returned unchanged), while the same call with
`delete = True` does change the filesystem — the flag gates the entire
download, not just the stale-file deletion. -/
theorem C6_bug :
    downloadYear netW datesW "/data/" false "2022" fsEmptyW = DLOut.ok fsEmptyW ∧
    downloadYear netW datesW "/data/" true "2022" fsEmptyW ≠ DLOut.ok fsEmptyW :=
  ⟨by decide, by decide⟩

/-! ### Claim C7 -/

/-- A target directory holding a stale 2022 file, with a DIFFERENT process
working directory (for C7). -/
def fsC7W : FS := ⟨"/cwd/", [("/data/" ++ yearStem "2022" ++ "20230101.csv", tblStale)]⟩

/-- State of `fsC7W` after the refresh: the fresh file was written next to the stale
one, which was never deleted. -/
def fsC7after : FS := fsWrite fsC7W ("/data/" ++ yearStem "2022" ++ "20230102.csv") tblFresh

/-- C7 divergence evidence: stale files are enumerated and deleted in the
process working directory (`os.listdir()` / `os.remove` on bare names), not in
the caller-supplied target directory the payload is written to; with
`directory = "/data/"` and cwd `"/cwd/"`, after a successful refresh BOTH the
stale `20230101` file and the fresh `20230102` file exist under `/data/` —
the at-most-one-file-per-year invariant fails. -/
theorem C7_bug :
    downloadYear netW datesW "/data/" true "2022" fsC7W = DLOut.ok fsC7after ∧
    fsGet fsC7after ("/data/" ++ yearStem "2022" ++ "20230101.csv") = some tblStale ∧
    fsGet fsC7after ("/data/" ++ yearStem "2022" ++ "20230102.csv") = some tblFresh :=
  ⟨by decide, by decide, by decide⟩

/-! ### Claim C9: loader lemmas -/

/-- The value of the `most_recent_file_date` fold over a list of parsed dates. -/
def foldMax (ds : List Nat) : Nat := ds.foldl (fun a d => if d > a then d else a) 0

theorem foldMaxAux_ge (ds : List Nat) : ∀ a : Nat,
    a ≤ ds.foldl (fun a d => if d > a then d else a) a ∧
    ∀ d ∈ ds, d ≤ ds.foldl (fun a d => if d > a then d else a) a := by
  induction ds with
  | nil =>
    intro a
    exact ⟨Nat.le_refl a, fun d hd => absurd hd (List.not_mem_nil d)⟩
  | cons x xs ih =>
    intro a
    rw [List.foldl_cons]
    obtain ⟨h1, h2⟩ := ih (if x > a then x else a)
    constructor
    · calc a ≤ (if x > a then x else a) := by split <;> omega
        _ ≤ _ := h1
    · intro d hd
      rcases List.mem_cons.mp hd with rfl | hd2
      · calc d ≤ (if d > a then d else a) := by split <;> omega
          _ ≤ _ := h1
      · exact h2 d hd2

theorem foldMaxAux_mem (ds : List Nat) : ∀ a : Nat,
    ds.foldl (fun a d => if d > a then d else a) a = a ∨
    ds.foldl (fun a d => if d > a then d else a) a ∈ ds := by
  induction ds with
  | nil => intro a; exact Or.inl rfl
  | cons x xs ih =>
    intro a
    rw [List.foldl_cons]
    rcases ih (if x > a then x else a) with h | h
    · rw [h]
      split
      · exact Or.inr (List.mem_cons_self x xs)
      · exact Or.inl rfl
    · exact Or.inr (List.mem_cons_of_mem x h)

theorem foldMax_spec {ds : List Nat} (hne : ds ≠ []) :
    foldMax ds ∈ ds ∧ ∀ d ∈ ds, d ≤ foldMax ds := by
  unfold foldMax
  obtain ⟨h1, h2⟩ := foldMaxAux_ge ds 0
  refine ⟨?_, h2⟩
  rcases foldMaxAux_mem ds 0 with h | h
  · cases ds with
    | nil => exact absurd rfl hne
    | cons x xs =>
      rw [h]
      have hx := h2 x (List.mem_cons_self x xs)
      rw [h] at hx
      rw [← Nat.le_zero.mp hx]
      exact List.mem_cons_self x xs
  · exact h

theorem sliceDate_canonical (pre d8 : List Char) (h8 : d8.length = 8) :
    sliceDate (pre ++ (d8 ++ (".csv".data))) = d8 := by
  unfold sliceDate
  have hcsv : (".csv".data).length = 4 := rfl
  have hlen : (pre ++ (d8 ++ ".csv".data)).length = pre.length + 12 := by
    rw [List.length_append, List.length_append, h8, hcsv]
  rw [hlen]
  have h1 : pre.length + 12 - 12 = pre.length := by omega
  rw [h1]
  have h2 : pre.length + 12 - 4 - pre.length = 8 := by omega
  rw [h2, List.drop_left, ← h8, List.take_left]

set_option maxHeartbeats 1000000 in
theorem maxDateLoop_map (directory year : String) {ds : List Nat}
    (hlen : ∀ d ∈ ds, (toString d).length = 8 ∧ digitsToNat (toString d).data = some d) :
    ∀ a : Nat, maxDateLoop (ds.map (fun d =>
        directory ++ yearStem year ++ toString d ++ ".csv")) a =
      some (ds.foldl (fun a d => if d > a then d else a) a) := by
  induction ds with
  | nil => intro a; rfl
  | cons x xs ih =>
    intro a
    rw [List.map_cons]
    unfold maxDateLoop
    have hx := hlen x (List.mem_cons_self x xs)
    have hdata : (directory ++ yearStem year ++ toString x ++ ".csv").data =
        (directory.data ++ (yearStem year).data) ++ ((toString x).data ++ ".csv".data) := by
      rw [String.data_append, String.data_append, String.data_append, List.append_assoc]
    have hslice : sliceDate (directory ++ yearStem year ++ toString x ++ ".csv").data =
        (toString x).data := by
      rw [hdata]
      exact sliceDate_canonical _ _
        (by rw [show ((toString x).data).length = (toString x).length from rfl, hx.1])
    rw [hslice, hx.2, List.foldl_cons]
    exact ih (fun d hd => hlen d (List.mem_cons_of_mem _ hd)) (if x > a then x else a)

theorem find?_key {l : List (String × Table)} {p : String} {kv : String × Table}
    (h : l.find? (fun kv => decide (kv.1 = p)) = some kv) : kv ∈ l ∧ kv.1 = p := by
  induction l with
  | nil => cases h
  | cons x xs ih =>
    by_cases hx : x.1 = p
    · have hs : List.find? (fun kv => decide (kv.1 = p)) (x :: xs) = some x := by
        simp [List.find?_cons, hx]
      rw [hs] at h
      cases h
      exact ⟨List.mem_cons_self _ _, hx⟩
    · have hs : List.find? (fun kv => decide (kv.1 = p)) (x :: xs) =
          List.find? (fun kv => decide (kv.1 = p)) xs := by
        simp [List.find?_cons, hx]
      rw [hs] at h
      obtain ⟨hm, hk⟩ := ih h
      exact ⟨List.mem_cons_of_mem _ hm, hk⟩

theorem fsGet_some_key {fs : FS} {p : String} {tbl : Table} (h : fsGet fs p = some tbl) :
    ∃ kv ∈ fs.files, kv.1 = p := by
  unfold fsGet at h
  cases hf : fs.files.find? (fun kv => decide (kv.1 = p)) with
  | none => rw [hf] at h; cases h
  | some kv =>
    obtain ⟨hm, hk⟩ := find?_key hf
    exact ⟨kv, hm, hk⟩

theorem fsGet_isSome_of_key {fs : FS} {p : String}
    (h : ∃ kv ∈ fs.files, kv.1 = p) : (fsGet fs p).isSome = true := by
  obtain ⟨kv, hkv, hkey⟩ := h
  unfold fsGet
  cases hf : fs.files.find? (fun kv => decide (kv.1 = p)) with
  | some kv2 => rfl
  | none =>
    have hno := List.find?_eq_none.mp hf kv hkv
    simp [hkey] at hno

theorem globMatches_key {fs : FS} {prefix_path p : String}
    (h : p ∈ globMatches fs prefix_path) : ∃ kv ∈ fs.files, kv.1 = p := by
  unfold globMatches at h
  rw [List.mem_filterMap] at h
  obtain ⟨kv, hkv, hsome⟩ := h
  by_cases hc : (strStartsWith kv.1 prefix_path &&
      strEndsWith (strDropLen prefix_path.length kv.1) ".csv") = true
  · rw [if_pos hc] at hsome
    cases hsome
    exact ⟨kv, hkv, rfl⟩
  · rw [if_neg hc] at hsome
    cases hsome

/-- C9: (a) when a requested year's glob matches a non-empty set of
canonically-named files (each embedding an 8-digit date), the loader reads
exactly the file whose embedded date is numerically greatest, and that file
exists; (b) a year with no matching file is skipped non-fatally: `read`
returns the combined table of the remaining years, unchanged. -/
theorem C9_thm :
    (∀ (fs : FS) (directory year : String) (ds : List Nat), ds ≠ [] →
      globMatches fs (directory ++ yearStem year) =
        ds.map (fun d => directory ++ yearStem year ++ toString d ++ ".csv") →
      (∀ d ∈ ds, (toString d).length = 8 ∧ digitsToNat (toString d).data = some d) →
      foldMax ds ∈ ds ∧ (∀ d ∈ ds, d ≤ foldMax ds) ∧
      readYear fs directory year =
        fsGet fs (directory ++ yearStem year ++ toString (foldMax ds) ++ ".csv") ∧
      (fsGet fs (directory ++ yearStem year ++ toString (foldMax ds) ++ ".csv")).isSome =
        true) ∧
    (∀ (fs : FS) (directory : String) (ys1 ys2 : List String) (y : String),
      globMatches fs (directory ++ yearStem y) = [] →
      read fs directory (YearsArg.list (ys1 ++ y :: ys2)) =
        read fs directory (YearsArg.list (ys1 ++ ys2))) := by
  constructor
  · intro fs directory year ds hne hglob hcanon
    obtain ⟨hmem, hmax⟩ := foldMax_spec hne
    refine ⟨hmem, hmax, ?_, ?_⟩
    · unfold readYear
      rw [hglob, maxDateLoop_map directory year hcanon 0]
      rfl
    · apply fsGet_isSome_of_key
      apply globMatches_key
      rw [hglob]
      exact List.mem_map.mpr ⟨foldMax ds, hmem, rfl⟩
  · intro fs directory ys1 ys2 y hempty
    have hnone : readYear fs directory y = none := by
      unfold readYear
      rw [hempty]
      show fsGet fs (directory ++ yearStem y ++ toString 0 ++ ".csv") = none
      cases hf : fsGet fs (directory ++ yearStem y ++ toString 0 ++ ".csv") with
      | none => rfl
      | some tbl =>
        exfalso
        obtain ⟨kv, hkv, hkey⟩ := fsGet_some_key hf
        have hcond : (strStartsWith kv.1 (directory ++ yearStem y) &&
            strEndsWith (strDropLen (directory ++ yearStem y).length kv.1) ".csv") = true := by
          rw [hkey, strAppend_assoc (directory ++ yearStem y) (toString 0) ".csv",
            Bool.and_eq_true]
          refine ⟨strStartsWith_append _ _, ?_⟩
          rw [strDropLen_append]
          rfl
        have hmemglob : kv.1 ∈ globMatches fs (directory ++ yearStem y) := by
          unfold globMatches
          rw [List.mem_filterMap]
          exact ⟨kv, hkv, by rw [if_pos hcond]⟩
        rw [hempty] at hmemglob
        cases hmemglob
    unfold read
    show (ys1 ++ y :: ys2).foldl _ emptyTable = (ys1 ++ ys2).foldl _ emptyTable
    rw [List.foldl_append, List.foldl_append, List.foldl_cons]
    rw [hnone]

/-- Two dated 2022 files in the target directory (for the C9 witness). -/
def fsC9W : FS := ⟨"/cwd/",
  [("/data/" ++ yearStem "2022" ++ "20230101.csv", tblStale),
   ("/data/" ++ yearStem "2022" ++ "20230102.csv", tblFresh)]⟩

/-- Witness for C9: with files dated `20230101` and `20230102` present, the
loader reads the `20230102` file. -/
theorem C9_witness :
    readYear fsC9W "/data/" "2022" =
      fsGet fsC9W ("/data/" ++ yearStem "2022" ++
        toString (foldMax [20230101, 20230102]) ++ ".csv") :=
  (C9_thm.1 fsC9W "/data/" "2022" [20230101, 20230102]
    (by decide) (by decide) (by decide)).2.2.1

end OE
